import Mathlib

/-!
# Fast-interpreter boilerplate builder (`fastinterp/build_fast_interp_lib.cpp`)

A shallow embedding of the registration hook, the IR loader walk, the
address-to-symbol matcher and the manifest emitter of the build tool, together
with theorems about them.

Conventions of the embedding:
* a `std::string` / `const char*` is a `String` (symbol and type names hold no NUL character); a
  `uint64_t`, `uintptr_t` or `void*` is a `Nat` (addresses and values are only copied and compared,
  never computed with);
* a `std::vector` is a `List`, `push_back` appends at the end;
* a failed `ReleaseAssert`, an `abort()` and a failed `exitOnError` end the run: functions that
  contain one return `Except Abort _`;
* code that is not part of the translation unit (`AstNodeType::ToString`,
  `ReflectiveStringifyParser::ParseTypeName`, the LLVM parser and JIT) is a parameter.
-/

namespace PochiVM

/-! ## Data model -/

/-- Kind tag of a meta-variable (`PochiVM::MetaVarType`). The three named kinds are the ones the
hook recognises; any other value of the underlying tag is kept as `other`. -/
inductive MetaVarType where
  | PRIMITIVE_TYPE
  | BOOL
  | ENUM
  | other (tag : Nat)
  deriving DecidableEq, Repr

/-- An AST node kind (`PochiVM::AstNodeType`), identified by its ordinal. -/
structure AstNodeType where
  ord : Nat
  deriving DecidableEq, Repr

/-- A meta-variable of a materialized list (`PochiVM::MetaVar`). -/
structure MetaVar where
  m_type : MetaVarType
  m_name : String
  m_enum_typename : String
  deriving DecidableEq, Repr

/-- One materialized instance (`PochiVM::MetaVarMaterializedInstance`). -/
structure MetaVarMaterializedInstance where
  m_values : List Nat
  m_fnPtr : Nat
  deriving DecidableEq, Repr

/-- The argument of the registration hook (`PochiVM::MetaVarMaterializedList`). -/
structure MetaVarMaterializedList where
  m_metavars : List MetaVar
  m_instances : List MetaVarMaterializedInstance
  deriving DecidableEq, Repr

/-- The struct `BoilerplateParam`. -/
structure BoilerplateParam where
  m_type : MetaVarType
  m_name : String
  m_typename : String
  deriving DecidableEq, Repr

/-- The struct `BoilerplateInstance`. -/
structure BoilerplateInstance where
  m_paramValues : List Nat
  m_ptr : Nat
  m_symbolName : String
  deriving DecidableEq, Repr

/-- The struct `BoilerplatePack`. -/
structure BoilerplatePack where
  m_params : List BoilerplateParam
  m_instances : List BoilerplateInstance
  deriving DecidableEq, Repr

/-- The type of `g_allBoilerplatePacks`. -/
abbrev Registry := List (AstNodeType × BoilerplatePack)

/-- The ways the process can end abnormally. `releaseAssert n` and `exitOnError n` carry the
source line of the failing `ReleaseAssert` / `exitOnError`. -/
inductive Abort where
  | releaseAssert (line : Nat)
  | irParseFailed
  | exitOnError (line : Nat)
  | ambiguousAddress (nodeType : AstNodeType)
  deriving DecidableEq, Repr

/-! ## Registration hook (lines 65-99) -/

/-- Body of the first loop of the hook (lines 70-85): the `BoilerplateParam` built from one
meta-variable. -/
def makeParam (ParseTypeName : String → String) (var : MetaVar) : Except Abort BoilerplateParam :=
  if var.m_type = MetaVarType.ENUM then
    .ok ⟨var.m_type, var.m_name, ParseTypeName var.m_enum_typename⟩
  else if var.m_type = MetaVarType.BOOL then
    .ok ⟨var.m_type, var.m_name, "bool"⟩
  else if var.m_type = MetaVarType.PRIMITIVE_TYPE then
    .ok ⟨var.m_type, var.m_name, "TypeId"⟩
  else
    .error (.releaseAssert 83)

/-- First loop of the hook (lines 68-87), run on the pack `p` built so far. -/
def registerParams (ParseTypeName : String → String) :
    List MetaVar → BoilerplatePack → Except Abort BoilerplatePack
  | [], p => .ok p
  | var :: rest, p =>
    match makeParam ParseTypeName var with
    | .error e => .error e
    | .ok bvar => registerParams ParseTypeName rest ⟨p.m_params ++ [bvar], p.m_instances⟩

/-- Second loop of the hook (lines 89-96). -/
def registerInstances : List MetaVarMaterializedInstance → BoilerplatePack → BoilerplatePack
  | [], p => p
  | inst :: rest, p =>
    registerInstances rest ⟨p.m_params, p.m_instances ++ [⟨inst.m_values, inst.m_fnPtr, ""⟩]⟩

/-- The registration hook, as a transformer of the global `g_allBoilerplatePacks`. -/
def __pochivm_register_fast_interp_boilerplate__ (ParseTypeName : String → String) (nodeType : AstNodeType)
    (list : MetaVarMaterializedList) (g_allBoilerplatePacks : Registry) : Except Abort Registry :=
  match registerParams ParseTypeName list.m_metavars ⟨[], []⟩ with
  | .error e => .error e
  | .ok p =>
    .ok (g_allBoilerplatePacks ++ [(nodeType, registerInstances list.m_instances p)])

/-- A run of the hook over a sequence of calls, in call order. -/
def registerAll (ParseTypeName : String → String) :
    List (AstNodeType × MetaVarMaterializedList) → Registry → Except Abort Registry
  | [], g => .ok g
  | (nodeType, list) :: rest, g =>
    match __pochivm_register_fast_interp_boilerplate__ ParseTypeName nodeType list g with
    | .error e => .error e
    | .ok g1 => registerAll ParseTypeName rest g1

/-! ## Manifest emitter (lines 219-227) -/

/-- Inner loop of the emitter (lines 223-226): `out` is what standard output holds so far. -/
def printInstances : List BoilerplateInstance → String → String
  | [], out => out
  | inst :: rest, out => printInstances rest (out ++ ("    " ++ inst.m_symbolName ++ "\n"))

/-- Outer loop of the emitter (lines 219-227). -/
def emitManifest (ToString : AstNodeType → String) : Registry → String → String
  | [], out => out
  | (nodeType, bp) :: rest, out =>
    emitManifest ToString rest (printInstances bp.m_instances (out ++ (ToString nodeType ++ ":\n")))

/-! ## Containers -/

/-- The comparison `std::less` that orders the keys of a container. -/
class StdLess (α : Type) where
  less : α → α → Bool

/-- Integers are ordered by value. -/
instance : StdLess Nat := ⟨fun a b => decide (a < b)⟩

/-- Lexicographic comparison of two character sequences, as `std::string::compare` does it. -/
def lexLess : List Char → List Char → Bool
  | [], [] => false
  | [], _ :: _ => true
  | _ :: _, [] => false
  | a :: as, b :: bs =>
    if a.toNat < b.toNat then true
    else if b.toNat < a.toNat then false
    else lexLess as bs

/-- Strings are ordered lexicographically. -/
instance : StdLess String := ⟨fun a b => lexLess a.data b.data⟩

/-- A `std::set`: the elements in iteration order (ascending, each once). -/
structure StdSet (α : Type) where
  elems : List α
  deriving Repr

namespace StdSet

variable {α : Type} [StdLess α] [DecidableEq α]

/-- The empty set. -/
def empty : StdSet α := ⟨[]⟩

/-- Insertion into the ordered element list; an element already present is not added again. -/
def insertInto (x : α) : List α → List α
  | [] => [x]
  | y :: ys =>
    if StdLess.less x y then x :: y :: ys else if x = y then y :: ys else y :: insertInto x ys

/-- The member function `insert`. -/
def insert (s : StdSet α) (x : α) : StdSet α := ⟨insertInto x s.elems⟩

/-- The member function `count`: 1 when `x` is an element, 0 otherwise. -/
def count (s : StdSet α) (x : α) : Nat := if x ∈ s.elems then 1 else 0

end StdSet

/-- A `std::map`, as a list of entries with pairwise distinct keys. It is never iterated by the
tool, so the order of the entries is not modelled. -/
structure StdMap (κ ν : Type) where
  entries : List (κ × ν)
  deriving Repr

namespace StdMap

variable {κ ν : Type} [DecidableEq κ]

/-- The empty map. -/
def empty : StdMap κ ν := ⟨[]⟩

/-- The value stored under `k`, if any. -/
def get? (m : StdMap κ ν) (k : κ) : Option ν :=
  match m.entries.find? (fun e => decide (e.1 = k)) with
  | some e => some e.2
  | none => none

/-- The member function `count`. -/
def count (m : StdMap κ ν) (k : κ) : Nat := if (m.get? k).isSome then 1 else 0

/-- The assignment `m[k] = v`. -/
def assign (m : StdMap κ ν) (k : κ) (v : ν) : StdMap κ ν :=
  ⟨(k, v) :: m.entries.filter (fun e => decide (e.1 ≠ k))⟩

end StdMap

/-- The member function `std::string::find` for a one-character pattern: the position of the
first occurrence, `none` standing for `npos`. -/
def find (s : String) (c : Char) : Option Nat :=
  if s.data.indexOf c < s.data.length then some (s.data.indexOf c) else none

end PochiVM

/-! ## The part of LLVM the tool looks at -/

namespace llvm

/-- The enumeration `GlobalValue::LinkageTypes`. -/
inductive LinkageTypes where
  | ExternalLinkage
  | AvailableExternallyLinkage
  | LinkOnceAnyLinkage
  | LinkOnceODRLinkage
  | WeakAnyLinkage
  | WeakODRLinkage
  | AppendingLinkage
  | InternalLinkage
  | PrivateLinkage
  | ExternalWeakLinkage
  | CommonLinkage
  deriving DecidableEq, Repr

/-- What the loader reads of an `llvm::Function`: `getName()`, `getLinkage()` and `empty()`
(no basic block, that is, no body). -/
structure Function where
  getName : String
  getLinkage : LinkageTypes
  empty : Bool
  deriving DecidableEq, Repr

/-- An `llvm::Module`, as the sequence `functions()`. -/
structure Module where
  functions : List Function
  deriving DecidableEq, Repr

end llvm

namespace PochiVM

open llvm (LinkageTypes)

/-! ## Argument validation (lines 110-115) -/

/-- The three `ReleaseAssert`s on the command line; `argc` is the length of `argv`. Returns
`bc_file` and `obj_file`. -/
def checkArgs (argv : List String) : Except Abort (String × String) :=
  if argv.length ≠ 3 then .error (.releaseAssert 110)
  else
    let bc_file := argv.getD 1 ""
    let obj_file := argv.getD 2 ""
    if find bc_file ';' ≠ none then .error (.releaseAssert 114)
    else if find obj_file ';' ≠ none then .error (.releaseAssert 115)
    else .ok (bc_file, obj_file)

/-! ## IR loader walk (lines 130-150) -/

/-- The linkage test of lines 133-137. -/
def qualifies (l : LinkageTypes) : Bool :=
  decide (l = LinkageTypes.LinkOnceODRLinkage) ||
  decide (l = LinkageTypes.WeakODRLinkage) ||
  decide (l = LinkageTypes.ExternalLinkage) ||
  decide (l = LinkageTypes.ExternalWeakLinkage) ||
  decide (l = LinkageTypes.AvailableExternallyLinkage)

/-- The two sets built by the walk. -/
structure SymbolTable where
  allDefinitions : StdSet String
  allDeclarations : StdSet String
  deriving Repr

/-- Lines 142-146: the update of `allDefinitions` for a function named `name`. -/
def noteDefinition (f : llvm.Function) (name : String) (allDefinitions : StdSet String) :
    Except Abort (StdSet String) :=
  if !f.empty then
    if allDefinitions.count name ≠ 0 then .error (.releaseAssert 144)
    else .ok (allDefinitions.insert name)
  else .ok allDefinitions

/-- Loop body of the walk (lines 133-149) for one function. -/
def walkFunction (f : llvm.Function) (t : SymbolTable) : Except Abort SymbolTable :=
  if qualifies f.getLinkage then
    let name := f.getName
    match noteDefinition f name t.allDefinitions with
    | .error e => .error e
    | .ok allDefinitions =>
      if t.allDeclarations.count name ≠ 0 then .error (.releaseAssert 147)
      else .ok ⟨allDefinitions, t.allDeclarations.insert name⟩
  else .ok t

/-- The walk over `module->functions()`. -/
def walkFunctions : List llvm.Function → SymbolTable → Except Abort SymbolTable
  | [], t => .ok t
  | f :: rest, t =>
    match walkFunction f t with
    | .error e => .error e
    | .ok t1 => walkFunctions rest t1

/-- Lines 130-150: the walk started from two empty sets. -/
def loadSymbols (module : llvm.Module) : Except Abort SymbolTable :=
  walkFunctions module.functions ⟨StdSet.empty, StdSet.empty⟩

/-! ## Address to symbol matcher (lines 185-216) -/

/-- The index built by the first loop. -/
structure AddressIndex where
  addrToSymbol : StdMap Nat String
  hasMultipleSymbolsMappingToThisAddress : StdSet Nat
  deriving Repr

/-- First loop of the matcher (lines 188-197) over the symbols in iteration order; `lookup` is
`J->lookup` followed by `getAddress`, `none` when the JIT reports an error. -/
def indexSymbols (lookup : String → Option Nat) : List String → AddressIndex → Except Abort AddressIndex
  | [], ix => .ok ix
  | symbol :: rest, ix =>
    match lookup symbol with
    | none => .error (.exitOnError 190)
    | some addr =>
      indexSymbols lookup rest
        ⟨ix.addrToSymbol.assign addr symbol,
         if ix.addrToSymbol.count addr ≠ 0 then ix.hasMultipleSymbolsMappingToThisAddress.insert addr
         else ix.hasMultipleSymbolsMappingToThisAddress⟩

/-- Loop body of the second loop (lines 204-214) for one instance of the pack of `nodeType`. -/
def resolveInstance (ix : AddressIndex) (allDefinitions : StdSet String) (nodeType : AstNodeType)
    (inst : BoilerplateInstance) : Except Abort BoilerplateInstance :=
  let addr := inst.m_ptr
  if ix.hasMultipleSymbolsMappingToThisAddress.count addr ≠ 0 then .error (.ambiguousAddress nodeType)
  else
    match ix.addrToSymbol.get? addr with
    | none => .error (.releaseAssert 212)
    | some symbol =>
      if allDefinitions.count symbol ≠ 0 then .ok ⟨inst.m_paramValues, inst.m_ptr, symbol⟩
      else .error (.releaseAssert 214)

/-- The inner loop (lines 202-215) over the instances of one pack. -/
def resolveInstances (ix : AddressIndex) (allDefinitions : StdSet String) (nodeType : AstNodeType) :
    List BoilerplateInstance → Except Abort (List BoilerplateInstance)
  | [] => .ok []
  | inst :: rest =>
    match resolveInstance ix allDefinitions nodeType inst with
    | .error e => .error e
    | .ok inst1 =>
      match resolveInstances ix allDefinitions nodeType rest with
      | .error e => .error e
      | .ok rest1 => .ok (inst1 :: rest1)

/-- The outer loop (lines 199-216) over the packs. -/
def resolvePacks (ix : AddressIndex) (allDefinitions : StdSet String) : Registry → Except Abort Registry
  | [] => .ok []
  | (nodeType, bp) :: rest =>
    match resolveInstances ix allDefinitions nodeType bp.m_instances with
    | .error e => .error e
    | .ok insts =>
      match resolvePacks ix allDefinitions rest with
      | .error e => .error e
      | .ok rest1 => .ok ((nodeType, ⟨bp.m_params, insts⟩) :: rest1)

/-- Lines 185-216: the matcher on the two sets of the loader. The first loop iterates
`allDeclarations`, so its symbols are indexed in the order of `elems`. -/
def matcher (lookup : String → Option Nat) (t : SymbolTable) (g : Registry) : Except Abort Registry :=
  match indexSymbols lookup t.allDeclarations.elems ⟨StdMap.empty, StdSet.empty⟩ with
  | .error e => .error e
  | .ok ix => resolvePacks ix t.allDefinitions g

/-! ## The whole run (`main`) -/

/-- What the run depends on besides the command line: the two helpers defined in other
translation units, and the behaviour of the LLVM parser, of the JIT and of the JIT-compiled entry
point. -/
structure Env where
  /-- The member function `AstNodeType::ToString`. -/
  ToString : AstNodeType → String
  /-- The helper `ReflectiveStringifyParser::ParseTypeName`. -/
  ParseTypeName : String → String
  /-- The call `parseIRFile(bc_file, ...)`; `none` is the null module. -/
  parseIRFile : String → Option llvm.Module
  /-- Whether `LLJITBuilder().create()` succeeds (line 161). -/
  createJIT : Bool
  /-- The call `GetForCurrentProcess` (line 164): `none` on error, else whether `R` is non-null. -/
  hostGenerator : Option Bool
  /-- Whether `J->addIRModule` succeeds (line 176). -/
  addIRModule : llvm.Module → Bool
  /-- The address `J->lookup(name)` resolves to; `none` on error. -/
  lookup : String → Option Nat
  /-- The calls of the registration hook made by `__pochivm_build_fast_interp_library__`. -/
  entryPoint : List (AstNodeType × MetaVarMaterializedList)

/-- Lines 154-217: the JIT is set up, the entry point fills the registry (empty at process
start), and the matcher resolves it. -/
def buildAndMatch (env : Env) (module : llvm.Module) (t : SymbolTable) : Except Abort Registry :=
  if !env.createJIT then .error (.exitOnError 161)
  else
    match env.hostGenerator with
    | none => .error (.exitOnError 164)
    | some false => .error (.releaseAssert 165)
    | some true =>
      if !env.addIRModule module then .error (.exitOnError 176)
      else
        match env.lookup "__pochivm_build_fast_interp_library__" with
        | none => .error (.exitOnError 178)
        | some _ =>
          match registerAll env.ParseTypeName env.entryPoint [] with
          | .error e => .error e
          | .ok g => matcher env.lookup t g

/-- The observable state of the process when it ends. -/
structure Run where
  /-- Everything written to standard output. -/
  stdout : String
  /-- The paths `parseIRFile` has been called on. -/
  parsedFiles : List String
  /-- The exit code, or the fatal error that ended the run. -/
  result : Except Abort Int
  deriving Repr

/-- The function `main`. -/
def main (env : Env) (argv : List String) : Run :=
  match checkArgs argv with
  | .error e => ⟨"", [], .error e⟩
  | .ok (bc_file, _) =>
    match env.parseIRFile bc_file with
    | none => ⟨"", [bc_file], .error .irParseFailed⟩
    | some module =>
      match loadSymbols module with
      | .error e => ⟨"", [bc_file], .error e⟩
      | .ok t =>
        match buildAndMatch env module t with
        | .error e => ⟨"", [bc_file], .error e⟩
        | .ok g => ⟨emitManifest env.ToString g "", [bc_file], .ok 0⟩

/-! ## Primitive types (`for_each_primitive_type.h`) -/

/-- The C++ types named by the lists of `for_each_primitive_type.h`. -/
inductive PrimitiveType where
  | bool
  | int8_t
  | int16_t
  | int32_t
  | int64_t
  | uint8_t
  | uint16_t
  | uint32_t
  | uint64_t
  | float
  | double
  deriving DecidableEq, Repr

/-- The list macro `FOR_EACH_PRIMITIVE_INT_TYPE`: its expansion for a given `F`, one item per
use of `F`, in the order of the text. -/
def FOR_EACH_PRIMITIVE_INT_TYPE {α : Type} (F : PrimitiveType → α) : List α :=
  [F .bool, F .int8_t, F .int16_t, F .int32_t, F .int64_t,
   F .uint8_t, F .uint16_t, F .uint32_t, F .uint64_t]

/-- The list macro `FOR_EACH_PRIMITIVE_FLOAT_TYPE`. -/
def FOR_EACH_PRIMITIVE_FLOAT_TYPE {α : Type} (F : PrimitiveType → α) : List α :=
  [F .float, F .double]

/-- The list macro `FOR_EACH_PRIMITIVE_TYPE`: the expansion of the integer list followed by the
expansion of the float list. -/
def FOR_EACH_PRIMITIVE_TYPE {α : Type} (F : PrimitiveType → α) : List α :=
  FOR_EACH_PRIMITIVE_INT_TYPE F ++ FOR_EACH_PRIMITIVE_FLOAT_TYPE F

/-- The value of an expansion under `#define F(type) +1`: the expression `+1 +1 ... +1`. -/
def plusOnes (expansion : List Int) : Int := expansion.foldl (fun acc item => acc + item) 0

namespace Ast

/-- The constant `x_num_primitive_types`. -/
def x_num_primitive_types : Int := plusOnes (FOR_EACH_PRIMITIVE_TYPE (fun _ => 1))

/-- The constant `x_num_primitive_int_types`. -/
def x_num_primitive_int_types : Int := plusOnes (FOR_EACH_PRIMITIVE_INT_TYPE (fun _ => 1))

/-- The constant `x_num_primitive_float_types`. -/
def x_num_primitive_float_types : Int := plusOnes (FOR_EACH_PRIMITIVE_FLOAT_TYPE (fun _ => 1))

end Ast

/-! ## Operand shapes (`fastinterp_tpl_operandshape.hpp`) -/

namespace FIOperandShapeCategoryHelper

/-- The member `cond<OscIndexType, osc>()` (lines 44-60). The C++ types and the enumeration
`FIOperandShapeCategory` are declared in other headers: they are the types `CppType` and `Osc`
here, given with the type `int32_t`, the two enumerators the function names, and the trait
`is_valid_index_type`. -/
def cond {CppType Osc : Type} [DecidableEq CppType] [DecidableEq Osc]
    (is_valid_index_type : CppType → Bool) (int32_t : CppType)
    (VARPTR_VAR VARPTR_LIT_NONZERO : Osc) (OscIndexType : CppType) (osc : Osc) : Bool :=
  if !is_valid_index_type OscIndexType then false
  else if !(decide (osc = VARPTR_VAR) || decide (osc = VARPTR_LIT_NONZERO)) &&
      !decide (OscIndexType = int32_t) then false
  else true

end FIOperandShapeCategoryHelper

/-! ## The materializer in the words of the specification -/

/-- Modelled from the spec: the domain of a meta-variable in canonical order (the header
`metavar.h` is not part of the sources at hand). A value is the position of the element in its
domain: for a primitive type its index in `FOR_EACH_PRIMITIVE_TYPE`, for a boolean 0 for false
and 1 for true, for an enum the ordinal of the enumerator; `enumSize` gives the number of
enumerators of a named enum. -/
def metaVarDomain (enumSize : String → Nat) (var : MetaVar) : List Nat :=
  match var.m_type with
  | MetaVarType.PRIMITIVE_TYPE => List.range (FOR_EACH_PRIMITIVE_TYPE (fun ty => ty)).length
  | MetaVarType.BOOL => [0, 1]
  | MetaVarType.ENUM => List.range (enumSize var.m_enum_typename)
  | MetaVarType.other _ => []

/-- Modelled from the spec: the depth-first enumeration of the value tuples, over the parameters
in declaration order and each domain in its order. -/
def enumerateTuples : List (List Nat) → List (List Nat)
  | [] => [[]]
  | domain :: rest =>
    (domain.map (fun v => (enumerateTuples rest).map (fun tuple => v :: tuple))).flatten

/-- Modelled from the spec: the materializer. The selector is called at every tuple; a non-null
result (`some addr`) becomes an instance, in enumeration order. -/
def materialize (enumSize : String → Nat) (metavars : List MetaVar)
    (selector : List Nat → Option Nat) : MetaVarMaterializedList :=
  ⟨metavars,
   (enumerateTuples (metavars.map (metaVarDomain enumSize))).filterMap
     (fun tuple => (selector tuple).map (fun addr => ⟨tuple, addr⟩))⟩

/-- The value that stands for a primitive type: its index in `FOR_EACH_PRIMITIVE_TYPE`. -/
def typeTag (ty : PrimitiveType) : Nat := (FOR_EACH_PRIMITIVE_TYPE (fun t => t)).indexOf ty

/-- The value that stands for a boolean. -/
def boolTag (b : Bool) : Nat := if b then 1 else 0

/-! ## The manifest format in the words of the specification -/

/-- The lines of one pack: the header, then one line per instance, indented by four spaces. -/
def packLines (ToString : AstNodeType → String) (e : AstNodeType × BoilerplatePack) : List String :=
  (ToString e.1 ++ ":") :: e.2.m_instances.map (fun inst => "    " ++ inst.m_symbolName)

/-- The lines of the manifest: the lines of the packs one after the other, in registration
order. -/
def manifestLines (ToString : AstNodeType → String) : Registry → List String
  | [] => []
  | e :: rest => packLines ToString e ++ manifestLines ToString rest

/-- A text made of the given lines, each ended by a newline. -/
def unlines : List String → String
  | [] => ""
  | l :: rest => l ++ "\n" ++ unlines rest

/-- The number of newline characters of a text. -/
def newlineCount (s : String) : Nat := s.data.count '\n'

/-! ## Predicates used in the statements -/

/-- What the index holds once the symbols `done` have been indexed. -/
structure IndexInv (lookup : String → Option Nat) (done : List String) (ix : AddressIndex) :
    Prop where
  /-- An entry of the map names an indexed symbol that lives at the key. -/
  sound : ∀ a s, ix.addrToSymbol.get? a = some s → s ∈ done ∧ lookup s = some a
  /-- The address of every indexed symbol is a key of the map. -/
  complete : ∀ s ∈ done, ∀ a, lookup s = some a → ix.addrToSymbol.get? a ≠ none
  /-- An address shared by two distinct indexed symbols is flagged. -/
  flagged : ∀ s1 ∈ done, ∀ s2 ∈ done, s1 ≠ s2 → ∀ a, lookup s1 = some a → lookup s2 = some a →
    a ∈ ix.hasMultipleSymbolsMappingToThisAddress.elems

/-- An instance `inst` and what the second loop of the matcher makes of it. -/
def Resolved (ix : AddressIndex) (allDefinitions : StdSet String)
    (inst inst1 : BoilerplateInstance) : Prop :=
  inst1.m_paramValues = inst.m_paramValues ∧ inst1.m_ptr = inst.m_ptr ∧
  inst.m_ptr ∉ ix.hasMultipleSymbolsMappingToThisAddress.elems ∧
  ix.addrToSymbol.get? inst.m_ptr = some inst1.m_symbolName ∧
  inst1.m_symbolName ∈ allDefinitions.elems

/-- A pack and what the second loop of the matcher makes of it. -/
def ResolvedPack (ix : AddressIndex) (allDefinitions : StdSet String)
    (e e1 : AstNodeType × BoilerplatePack) : Prop :=
  e1.1 = e.1 ∧ e1.2.m_params = e.2.m_params ∧
  List.Forall₂ (Resolved ix allDefinitions) e.2.m_instances e1.2.m_instances

/-- The three meta-variable kinds the hook recognises. -/
def KnownKind (k : MetaVarType) : Prop :=
  k = MetaVarType.PRIMITIVE_TYPE ∨ k = MetaVarType.BOOL ∨ k = MetaVarType.ENUM

instance (k : MetaVarType) : Decidable (KnownKind k) := by unfold KnownKind; infer_instance

/-- The canonical type names in the words of the specification: what a parameter built from the
meta-variable `var` has to look like. -/
def CanonicalParam (ParseTypeName : String → String) (var : MetaVar) (bvar : BoilerplateParam) :
    Prop :=
  bvar.m_type = var.m_type ∧ bvar.m_name = var.m_name ∧
  (var.m_type = MetaVarType.PRIMITIVE_TYPE → bvar.m_typename = "TypeId") ∧
  (var.m_type = MetaVarType.BOOL → bvar.m_typename = "bool") ∧
  (var.m_type = MetaVarType.ENUM → bvar.m_typename = ParseTypeName var.m_enum_typename)

/-- The qualifying linkages in the words of the specification. -/
def QualifyingLinkage (l : LinkageTypes) : Prop :=
  l = LinkageTypes.ExternalLinkage ∨ l = LinkageTypes.WeakODRLinkage ∨
  l = LinkageTypes.LinkOnceODRLinkage ∨ l = LinkageTypes.ExternalWeakLinkage ∨
  l = LinkageTypes.AvailableExternallyLinkage

/-- What the two sets hold once the functions `done` have been walked. -/
def TableInv (done : List llvm.Function) (t : SymbolTable) : Prop :=
  ∀ n, (n ∈ t.allDeclarations.elems ↔ ∃ f ∈ done, f.getName = n ∧ QualifyingLinkage f.getLinkage) ∧
    (n ∈ t.allDefinitions.elems ↔
      ∃ f ∈ done, f.getName = n ∧ QualifyingLinkage f.getLinkage ∧ f.empty = false)

/-! ## Sample inputs -/

/-- A lookup with two bodies of a pack, two names folded onto one address, and an external
reference. -/
def sampleLookup (s : String) : Option Nat :=
  if s = "neg_false" then some 4096
  else if s = "neg_true" then some 4112
  else if s = "op_a" then some 8192
  else if s = "op_b" then some 8192
  else if s = "ext" then some 12288
  else none

/-- The node kinds are printed as `Neg` (ordinal 0) and `Op` (any other ordinal). -/
def sampleToString (k : AstNodeType) : String := if k.ord = 0 then "Neg" else "Op"

/-- The pack of the single-bool scenario, as the hook leaves it. -/
def negPack : AstNodeType × BoilerplatePack :=
  (⟨0⟩, ⟨[⟨MetaVarType.BOOL, "b", "bool"⟩], [⟨[0], 4096, ""⟩, ⟨[1], 4112, ""⟩]⟩)

/-- The pack of the single-bool scenario after the matcher. -/
def negPackResolved : AstNodeType × BoilerplatePack :=
  (⟨0⟩, ⟨[⟨MetaVarType.BOOL, "b", "bool"⟩], [⟨[0], 4096, "neg_false"⟩, ⟨[1], 4112, "neg_true"⟩]⟩)

/-- A pack with one instance at the address `a`. -/
def opPack (a : Nat) : AstNodeType × BoilerplatePack := (⟨1⟩, ⟨[], [⟨[], a, ""⟩]⟩)

/-- A symbol table in which every name of `sampleLookup` is declared and all but `ext` are
defined. -/
def sampleTable : SymbolTable :=
  ⟨⟨["neg_false", "neg_true", "op_a", "op_b"]⟩, ⟨["ext", "neg_false", "neg_true", "op_a", "op_b"]⟩⟩

/-- A symbol table without the folded names. -/
def negTable : SymbolTable := ⟨⟨["neg_false", "neg_true"]⟩, ⟨["ext", "neg_false", "neg_true"]⟩⟩

/-- The materialized list of the single-bool scenario. -/
def negList : MetaVarMaterializedList :=
  ⟨[⟨MetaVarType.BOOL, "b", ""⟩], [⟨[0], 4096⟩, ⟨[1], 4112⟩]⟩

/-- A materialized list without meta-variables and with one instance at the address `a`. -/
def opList (a : Nat) : MetaVarMaterializedList := ⟨[], [⟨[], a⟩]⟩

/-- A module with the entry point, the two bodies of the single-bool scenario, an external
reference without body, and a function with internal linkage. -/
def negModule : llvm.Module :=
  ⟨[⟨"__pochivm_build_fast_interp_library__", LinkageTypes.ExternalLinkage, false⟩,
    ⟨"neg_true", LinkageTypes.LinkOnceODRLinkage, false⟩,
    ⟨"neg_false", LinkageTypes.WeakODRLinkage, false⟩,
    ⟨"ext", LinkageTypes.ExternalLinkage, true⟩,
    ⟨"helper", LinkageTypes.InternalLinkage, false⟩]⟩

/-- The module `negModule` with two more bodies, `op_a` and `op_b`, which `sampleLookup` places
at one address. -/
def foldedModule : llvm.Module :=
  ⟨negModule.functions ++
    [⟨"op_b", LinkageTypes.LinkOnceODRLinkage, false⟩,
     ⟨"op_a", LinkageTypes.LinkOnceODRLinkage, false⟩]⟩

/-- An environment in which every step of the JIT succeeds and the entry point makes the given
calls of the hook. -/
def sampleEnv (module : llvm.Module) (calls : List (AstNodeType × MetaVarMaterializedList)) : Env where
  ToString := sampleToString
  ParseTypeName := fun s => s
  parseIRFile := fun _ => some module
  createJIT := true
  hostGenerator := some true
  addIRModule := fun _ => true
  lookup := fun s => if s = "__pochivm_build_fast_interp_library__" then some 1024 else sampleLookup s
  entryPoint := calls

/-- A materialized list with one meta-variable of each recognised kind and no instance. -/
def mixedList : MetaVarMaterializedList :=
  ⟨[⟨MetaVarType.PRIMITIVE_TYPE, "T", ""⟩, ⟨MetaVarType.BOOL, "b", ""⟩,
    ⟨MetaVarType.ENUM, "op", "PochiVM::AstArithmeticExprType"⟩], []⟩

/-- The meta-variables of the scenario with a primitive type and a boolean. -/
def primBoolSpec : List MetaVar :=
  [⟨MetaVarType.PRIMITIVE_TYPE, "T", ""⟩, ⟨MetaVarType.BOOL, "signed", ""⟩]

/-- Whether the first value of a tuple stands for one of the primitive integer types. -/
def hasIntType (tuple : List Nat) : Bool :=
  match tuple with
  | [] => false
  | v :: _ => decide (v ∈ FOR_EACH_PRIMITIVE_INT_TYPE typeTag)

/-- A selector that accepts exactly the tuples with a primitive integer type; the address it
hands out is made from the values of the tuple. -/
def intSelector (tuple : List Nat) : Option Nat :=
  if hasIntType tuple then some (4096 + 16 * tuple.foldl (fun acc v => 2 * acc + v) 0) else none

/-- A materialized list with one meta-variable whose only instance carries no value. -/
def shortList : MetaVarMaterializedList := ⟨[⟨MetaVarType.BOOL, "b", ""⟩], [⟨[], 4096⟩]⟩

/-- The operand shapes named in `fastinterp_tpl_operandshape.hpp`. -/
inductive SampleShape where
  | COMPLEX
  | LITERAL_NONZERO
  | ZERO
  | VARIABLE
  | VARPTR_DEREF
  | VARPTR_VAR
  | VARPTR_LIT_NONZERO
  deriving DecidableEq, Repr

/-- A trait that holds of the 32 and 64 bit integer types. -/
def sampleValidIndex (ty : PrimitiveType) : Bool :=
  decide (ty = .int32_t) || decide (ty = .uint32_t) || decide (ty = .int64_t) ||
  decide (ty = .uint64_t)

/-- The pack the hook makes of the materialized list of `primBoolSpec` and `intSelector`. -/
def primBoolPack : AstNodeType × BoilerplatePack :=
  (⟨1⟩,
   ⟨[⟨MetaVarType.PRIMITIVE_TYPE, "T", "TypeId"⟩, ⟨MetaVarType.BOOL, "signed", "bool"⟩],
    (materialize (fun _ => 0) primBoolSpec intSelector).m_instances.map
      (fun inst => ⟨inst.m_values, inst.m_fnPtr, ""⟩)⟩)

/-! ## Theorems: manifest emitter -/

theorem unlines_append (a b : List String) : unlines (a ++ b) = unlines a ++ unlines b := by
  induction a with
  | nil => simp [unlines]
  | cons l rest ih => simp [unlines, ih, String.append_assoc]

theorem printInstances_eq (insts : List BoilerplateInstance) (out : String) :
    printInstances insts out
      = out ++ unlines (insts.map (fun inst => "    " ++ inst.m_symbolName)) := by
  induction insts generalizing out with
  | nil => simp [printInstances, unlines]
  | cons inst rest ih => simp [printInstances, unlines, ih, String.append_assoc]

theorem emitManifest_eq (ToString : AstNodeType → String) (reg : Registry) (out : String) :
    emitManifest ToString reg out = out ++ unlines (manifestLines ToString reg) := by
  induction reg generalizing out with
  | nil => simp [emitManifest, manifestLines, unlines]
  | cons e rest ih =>
    obtain ⟨nodeType, bp⟩ := e
    simp [emitManifest, manifestLines, packLines, unlines, unlines_append, ih,
      printInstances_eq, String.append_assoc]

theorem manifestLines_length (ToString : AstNodeType → String) (reg : Registry) :
    (manifestLines ToString reg).length
      = reg.length + (reg.map (fun e => e.2.m_instances.length)).sum := by
  induction reg with
  | nil => simp [manifestLines]
  | cons e rest ih => simp [manifestLines, packLines, ih]; omega

theorem newlineCount_append (a b : String) :
    newlineCount (a ++ b) = newlineCount a + newlineCount b := by
  simp [newlineCount, String.data_append]

theorem newlineCount_unlines (ls : List String) (h : ∀ l ∈ ls, '\n' ∉ l.data) :
    newlineCount (unlines ls) = ls.length := by
  induction ls with
  | nil => simp [unlines, newlineCount]
  | cons l rest ih =>
    have h1 : newlineCount l = 0 := by
      simp only [newlineCount]
      exact List.count_eq_zero.mpr (h l (List.mem_cons_self _ _))
    have h2 : newlineCount "\n" = 1 := by decide
    simp only [unlines, newlineCount_append, h1, h2, List.length_cons]
    rw [ih (fun l1 hl1 => h l1 (List.mem_cons_of_mem _ hl1))]
    omega

theorem manifestLines_no_newline (ToString : AstNodeType → String) (reg : Registry)
    (h : ∀ e ∈ reg, '\n' ∉ (ToString e.1).data ∧
      ∀ inst ∈ e.2.m_instances, '\n' ∉ inst.m_symbolName.data) :
    ∀ l ∈ manifestLines ToString reg, '\n' ∉ l.data := by
  induction reg with
  | nil => simp [manifestLines]
  | cons e rest ih =>
    intro l hl
    simp only [manifestLines, packLines, List.mem_append, List.mem_cons, List.mem_map] at hl
    rcases hl with (rfl | ⟨inst, hinst, rfl⟩) | hrest
    · have := (h e (List.mem_cons_self _ _)).1
      simp [String.data_append, this]
    · have := (h e (List.mem_cons_self _ _)).2 inst hinst
      simp [String.data_append, this]
    · exact ih (fun e1 he1 => h e1 (List.mem_cons_of_mem _ he1)) l hrest

/-- C1: the text written by the emitter, started on an empty standard output, is the lines of the
manifest in the words of the specification (per pack in registration order: the header
`<name>:`, then one line of four spaces and the symbol name per instance in instance order), each
ended by a newline and nothing else. These are N + sum K_i lines; when no name contains a
newline character this is also the number of newline characters of the text. The text is empty for
the empty registry. -/
theorem manifest_is_lines_in_order (ToString : AstNodeType → String) (reg : Registry) :
    emitManifest ToString reg "" = unlines (manifestLines ToString reg)
    ∧ (manifestLines ToString reg).length
        = reg.length + (reg.map (fun e => e.2.m_instances.length)).sum
    ∧ ((∀ e ∈ reg, '\n' ∉ (ToString e.1).data ∧
          ∀ inst ∈ e.2.m_instances, '\n' ∉ inst.m_symbolName.data) →
        newlineCount (emitManifest ToString reg "")
          = reg.length + (reg.map (fun e => e.2.m_instances.length)).sum)
    ∧ emitManifest ToString [] "" = "" := by
  refine ⟨by simp [emitManifest_eq], manifestLines_length ToString reg, ?_, rfl⟩
  intro h
  rw [emitManifest_eq, newlineCount_append,
    newlineCount_unlines _ (manifestLines_no_newline ToString reg h), manifestLines_length]
  simp [newlineCount]

theorem manifest_is_lines_in_order_witness :
    emitManifest sampleToString [negPackResolved, opPack 7] ""
      = "Neg:\n    neg_false\n    neg_true\nOp:\n    \n"
    ∧ newlineCount (emitManifest sampleToString [negPackResolved, opPack 7] "") = 2 + (2 + 1) :=
  ⟨rfl, (manifest_is_lines_in_order sampleToString [negPackResolved, opPack 7]).2.2.1 (by decide)⟩

/-! ## Theorems: containers -/

namespace StdSet

theorem count_ne_zero_iff_mem {α : Type} [DecidableEq α] (s : StdSet α) (x : α) :
    s.count x ≠ 0 ↔ x ∈ s.elems := by
  unfold count; split_ifs with h <;> simp [h]

theorem not_mem_empty {α : Type} (x : α) : x ∉ (empty : StdSet α).elems := by simp [empty]

variable {α : Type} [StdLess α] [DecidableEq α]

theorem mem_insertInto (x y : α) (l : List α) : y ∈ insertInto x l ↔ y = x ∨ y ∈ l := by
  induction l with
  | nil => simp [insertInto]
  | cons z zs ih =>
    simp only [insertInto]
    split_ifs with h1 h2
    · simp
    · subst h2; simp
    · simp only [List.mem_cons, ih]; tauto

theorem mem_insert (s : StdSet α) (x y : α) : y ∈ (s.insert x).elems ↔ y = x ∨ y ∈ s.elems :=
  mem_insertInto x y s.elems

end StdSet

namespace StdMap

variable {κ ν : Type} [DecidableEq κ]

theorem find?_filter_ne (l : List (κ × ν)) (k k1 : κ) (h : k1 ≠ k) :
    (l.filter (fun e => decide (e.1 ≠ k))).find? (fun e => decide (e.1 = k1))
      = l.find? (fun e => decide (e.1 = k1)) := by
  induction l with
  | nil => rfl
  | cons e rest ih =>
    by_cases h1 : e.1 = k
    · have h2 : ¬ e.1 = k1 := fun h3 => h (h3.symm.trans h1)
      rw [List.filter_cons_of_neg (by simpa using h1), List.find?_cons_of_neg _ (by simpa using h2)]
      exact ih
    · rw [List.filter_cons_of_pos (by simpa using h1)]
      by_cases h2 : e.1 = k1
      · rw [List.find?_cons_of_pos _ (by simpa using h2), List.find?_cons_of_pos _ (by simpa using h2)]
      · rw [List.find?_cons_of_neg _ (by simpa using h2), List.find?_cons_of_neg _ (by simpa using h2)]
        exact ih

theorem get?_assign (m : StdMap κ ν) (k k1 : κ) (v : ν) :
    (m.assign k v).get? k1 = if k1 = k then some v else m.get? k1 := by
  by_cases h : k1 = k
  · subst h; simp [get?, assign, List.find?_cons]
  · have h1 : ¬ k = k1 := fun h2 => h h2.symm
    simp only [get?, assign, List.find?_cons, h, h1, decide_False, if_false]
    rw [find?_filter_ne _ _ _ h]

theorem count_ne_zero_iff_get (m : StdMap κ ν) (k : κ) : m.count k ≠ 0 ↔ m.get? k ≠ none := by
  unfold count
  cases h : m.get? k <;> simp

theorem get?_empty (k : κ) : (empty : StdMap κ ν).get? k = none := by simp [get?, empty]

end StdMap

/-! ## Theorems: the address index -/

theorem indexInv_init (lookup : String → Option Nat) :
    IndexInv lookup [] ⟨StdMap.empty, StdSet.empty⟩ where
  sound := by intro a s h; simp [StdMap.get?_empty] at h
  complete := by intro s hs; simp at hs
  flagged := by intro s hs; simp at hs

theorem indexInv_step {lookup : String → Option Nat} {done : List String} {ix : AddressIndex}
    (inv : IndexInv lookup done ix) (symbol : String) (addr : Nat)
    (hl : lookup symbol = some addr) :
    IndexInv lookup (done ++ [symbol])
      ⟨ix.addrToSymbol.assign addr symbol,
       if ix.addrToSymbol.count addr ≠ 0 then ix.hasMultipleSymbolsMappingToThisAddress.insert addr
       else ix.hasMultipleSymbolsMappingToThisAddress⟩ where
  sound := by
    intro a s h
    simp only [StdMap.get?_assign] at h
    split_ifs at h with ha
    · cases h; subst ha; exact ⟨by simp, hl⟩
    · obtain ⟨h1, h2⟩ := inv.sound a s h
      exact ⟨by simp [h1], h2⟩
  complete := by
    intro s hs a hsa
    simp only [StdMap.get?_assign]
    split_ifs with ha
    · simp
    · rcases List.mem_append.mp hs with h1 | h1
      · exact inv.complete s h1 a hsa
      · simp only [List.mem_singleton] at h1
        subst h1
        rw [hl] at hsa
        cases hsa
        exact absurd rfl ha
  flagged := by
    intro s1 hs1 s2 hs2 hne a h1 h2
    have old : a ∈ ix.hasMultipleSymbolsMappingToThisAddress.elems →
        a ∈ (if ix.addrToSymbol.count addr ≠ 0 then
              ix.hasMultipleSymbolsMappingToThisAddress.insert addr
            else ix.hasMultipleSymbolsMappingToThisAddress).elems := by
      intro h
      split_ifs
      · exact (StdSet.mem_insert _ _ _).mpr (Or.inr h)
      · exact h
    have fresh : ∀ s ∈ done, lookup s = some addr →
        addr ∈ (if ix.addrToSymbol.count addr ≠ 0 then
              ix.hasMultipleSymbolsMappingToThisAddress.insert addr
            else ix.hasMultipleSymbolsMappingToThisAddress).elems := by
      intro s hs hsa
      have hc : ix.addrToSymbol.count addr ≠ 0 :=
        (StdMap.count_ne_zero_iff_get _ _).mpr (inv.complete s hs addr hsa)
      rw [if_pos hc]
      exact (StdSet.mem_insert _ _ _).mpr (Or.inl rfl)
    rcases List.mem_append.mp hs1 with d1 | d1 <;> rcases List.mem_append.mp hs2 with d2 | d2
    · exact old (inv.flagged s1 d1 s2 d2 hne a h1 h2)
    · simp only [List.mem_singleton] at d2
      subst d2
      rw [hl] at h2
      cases h2
      exact fresh s1 d1 h1
    · simp only [List.mem_singleton] at d1
      subst d1
      rw [hl] at h1
      cases h1
      exact fresh s2 d2 h2
    · simp only [List.mem_singleton] at d1 d2
      exact absurd (d1.trans d2.symm) hne

theorem indexSymbols_inv (lookup : String → Option Nat) (syms done : List String)
    (ix ix1 : AddressIndex) (inv : IndexInv lookup done ix)
    (h : indexSymbols lookup syms ix = .ok ix1) : IndexInv lookup (done ++ syms) ix1 := by
  induction syms generalizing done ix with
  | nil =>
    simp only [indexSymbols, Except.ok.injEq] at h
    subst h
    simpa using inv
  | cons symbol rest ih =>
    simp only [indexSymbols] at h
    cases hl : lookup symbol with
    | none => simp [hl] at h
    | some addr =>
      simp only [hl] at h
      have := ih (done ++ [symbol]) _ (indexInv_step inv symbol addr hl) h
      simpa using this

/-- The index building loop fails only when a lookup fails. -/
theorem indexSymbols_ok (lookup : String → Option Nat) (syms : List String) (ix : AddressIndex)
    (h : ∀ s ∈ syms, lookup s ≠ none) : ∃ ix1, indexSymbols lookup syms ix = .ok ix1 := by
  induction syms generalizing ix with
  | nil => exact ⟨ix, rfl⟩
  | cons symbol rest ih =>
    cases hl : lookup symbol with
    | none => exact absurd hl (h symbol (List.mem_cons_self _ _))
    | some addr =>
      simp only [indexSymbols, hl]
      exact ih _ (fun s hs => h s (List.mem_cons_of_mem _ hs))

/-! ## Theorems: the resolving loops -/

theorem resolveInstance_ok {ix : AddressIndex} {allDefinitions : StdSet String}
    {nodeType : AstNodeType} {inst inst1 : BoilerplateInstance}
    (h : resolveInstance ix allDefinitions nodeType inst = .ok inst1) :
    Resolved ix allDefinitions inst inst1 := by
  unfold resolveInstance at h
  simp only at h
  split_ifs at h with h1
  cases hg : ix.addrToSymbol.get? inst.m_ptr with
  | none => simp [hg] at h
  | some symbol =>
    simp only [hg] at h
    split_ifs at h with h2
    simp only [Except.ok.injEq] at h
    subst h
    refine ⟨rfl, rfl, ?_, hg, (StdSet.count_ne_zero_iff_mem _ _).mp h2⟩
    intro hm
    exact h1 ((StdSet.count_ne_zero_iff_mem _ _).mpr hm)

theorem resolveInstances_ok {ix : AddressIndex} {allDefinitions : StdSet String}
    {nodeType : AstNodeType} {insts insts1 : List BoilerplateInstance}
    (h : resolveInstances ix allDefinitions nodeType insts = .ok insts1) :
    List.Forall₂ (Resolved ix allDefinitions) insts insts1 := by
  induction insts generalizing insts1 with
  | nil =>
    simp only [resolveInstances, Except.ok.injEq] at h
    subst h
    exact List.Forall₂.nil
  | cons inst rest ih =>
    simp only [resolveInstances] at h
    cases h1 : resolveInstance ix allDefinitions nodeType inst with
    | error e => simp [h1] at h
    | ok inst1 =>
      cases h2 : resolveInstances ix allDefinitions nodeType rest with
      | error e => simp [h1, h2] at h
      | ok rest1 =>
        simp only [h1, h2, Except.ok.injEq] at h
        subst h
        exact List.Forall₂.cons (resolveInstance_ok h1) (ih h2)

theorem resolvePacks_ok {ix : AddressIndex} {allDefinitions : StdSet String}
    {g g1 : Registry} (h : resolvePacks ix allDefinitions g = .ok g1) :
    List.Forall₂ (ResolvedPack ix allDefinitions) g g1 := by
  induction g generalizing g1 with
  | nil =>
    simp only [resolvePacks, Except.ok.injEq] at h
    subst h
    exact List.Forall₂.nil
  | cons e rest ih =>
    obtain ⟨nodeType, bp⟩ := e
    simp only [resolvePacks] at h
    cases h1 : resolveInstances ix allDefinitions nodeType bp.m_instances with
    | error e => simp [h1] at h
    | ok insts =>
      cases h2 : resolvePacks ix allDefinitions rest with
      | error e => simp [h1, h2] at h
      | ok rest1 =>
        simp only [h1, h2, Except.ok.injEq] at h
        subst h
        exact List.Forall₂.cons ⟨rfl, rfl, resolveInstances_ok h1⟩ (ih h2)

theorem forall₂_of_mem_left {α β : Type} {R : α → β → Prop} {l : List α} {l1 : List β}
    (h : List.Forall₂ R l l1) : ∀ x ∈ l, ∃ y ∈ l1, R x y := by
  induction h with
  | nil => intro x hx; simp at hx
  | cons hab _ ih =>
    intro x hx
    rcases List.mem_cons.mp hx with rfl | hx
    · exact ⟨_, List.mem_cons_self _ _, hab⟩
    · obtain ⟨y, hy, hr⟩ := ih x hx
      exact ⟨y, List.mem_cons_of_mem _ hy, hr⟩

theorem forall₂_of_mem_right {α β : Type} {R : α → β → Prop} {l : List α} {l1 : List β}
    (h : List.Forall₂ R l l1) : ∀ y ∈ l1, ∃ x ∈ l, R x y := by
  induction h with
  | nil => intro y hy; simp at hy
  | cons hab _ ih =>
    intro y hy
    rcases List.mem_cons.mp hy with rfl | hy
    · exact ⟨_, List.mem_cons_self _ _, hab⟩
    · obtain ⟨x, hx, hr⟩ := ih y hy
      exact ⟨x, List.mem_cons_of_mem _ hx, hr⟩

/-- A successful run of the matcher: the index satisfies its invariant for all declared symbols
and every pack went through the resolving loop. -/
theorem matcher_ok {lookup : String → Option Nat} {t : SymbolTable} {g g1 : Registry}
    (h : matcher lookup t g = .ok g1) :
    ∃ ix, IndexInv lookup t.allDeclarations.elems ix ∧
      List.Forall₂ (ResolvedPack ix t.allDefinitions) g g1 := by
  unfold matcher at h
  cases hi : indexSymbols lookup t.allDeclarations.elems ⟨StdMap.empty, StdSet.empty⟩ with
  | error e => simp [hi] at h
  | ok ix =>
    simp only [hi] at h
    have inv := indexSymbols_inv lookup _ [] _ ix (indexInv_init lookup) hi
    exact ⟨ix, by simpa using inv, resolvePacks_ok h⟩

/-- After a successful run, the address of every registered instance belongs to exactly one
declared symbol, and that symbol is a definition. -/
theorem matcher_ok_unique {lookup : String → Option Nat} {t : SymbolTable} {g g1 : Registry}
    (h : matcher lookup t g = .ok g1) (e : AstNodeType × BoilerplatePack) (he : e ∈ g)
    (inst : BoilerplateInstance) (hinst : inst ∈ e.2.m_instances) :
    ∃ name, name ∈ t.allDeclarations.elems ∧ lookup name = some inst.m_ptr ∧
      name ∈ t.allDefinitions.elems ∧
      ∀ s ∈ t.allDeclarations.elems, lookup s = some inst.m_ptr → s = name := by
  obtain ⟨ix, inv, hall⟩ := matcher_ok h
  obtain ⟨e1, _, _, _, hinsts⟩ := forall₂_of_mem_left hall e he
  obtain ⟨inst1, _, _, _, hnot, hget, hdef⟩ := forall₂_of_mem_left hinsts inst hinst
  obtain ⟨hmem, hl⟩ := inv.sound _ _ hget
  refine ⟨inst1.m_symbolName, hmem, hl, hdef, ?_⟩
  intro s hs hsl
  by_contra hne
  exact hnot (inv.flagged s hs _ hmem hne _ hsl hl)

/-! ## Theorems: the matcher -/

/-- C2: when the matcher completes, every pack keeps its kind and parameters, and every instance
keeps its values and address and is given a symbol name that is one of the declared symbols and
whose lookup returns the address the instance was registered with. -/
theorem matcher_round_trip (lookup : String → Option Nat) (t : SymbolTable) (g g1 : Registry)
    (h : matcher lookup t g = .ok g1) :
    List.Forall₂
      (fun e e1 => e1.1 = e.1 ∧ e1.2.m_params = e.2.m_params ∧
        List.Forall₂
          (fun inst inst1 =>
            inst1.m_paramValues = inst.m_paramValues ∧ inst1.m_ptr = inst.m_ptr ∧
            lookup inst1.m_symbolName = some inst.m_ptr ∧
            inst1.m_symbolName ∈ t.allDeclarations.elems)
          e.2.m_instances e1.2.m_instances)
      g g1 := by
  obtain ⟨ix, inv, hall⟩ := matcher_ok h
  refine hall.imp ?_
  rintro e e1 ⟨h1, h2, h3⟩
  refine ⟨h1, h2, h3.imp ?_⟩
  rintro inst inst1 ⟨r1, r2, _, r4, _⟩
  exact ⟨r1, r2, (inv.sound _ _ r4).2, (inv.sound _ _ r4).1⟩

theorem matcher_round_trip_witness :
    matcher sampleLookup negTable [negPack] = .ok [negPackResolved] ∧
    List.Forall₂
      (fun e e1 => e1.1 = e.1 ∧ e1.2.m_params = e.2.m_params ∧
        List.Forall₂
          (fun inst inst1 =>
            inst1.m_paramValues = inst.m_paramValues ∧ inst1.m_ptr = inst.m_ptr ∧
            sampleLookup inst1.m_symbolName = some inst.m_ptr ∧
            inst1.m_symbolName ∈ negTable.allDeclarations.elems)
          e.2.m_instances e1.2.m_instances)
      [negPack] [negPackResolved] :=
  ⟨rfl, matcher_round_trip sampleLookup negTable [negPack] [negPackResolved] rfl⟩

/-- C3: if the address of some registered instance is the address of two distinct declared
symbols, or of no declared symbol, the matcher aborts, for every lookup, every iteration order of
the declared symbols and every set of definitions; and after a successful match the address of
every registered instance is the address of exactly one declared symbol. -/
theorem matcher_refuses_ambiguous_and_absent (lookup : String → Option Nat) (t : SymbolTable)
    (g : Registry) :
    ((∃ e ∈ g, ∃ inst ∈ e.2.m_instances,
        (∃ s1 ∈ t.allDeclarations.elems, ∃ s2 ∈ t.allDeclarations.elems,
          s1 ≠ s2 ∧ lookup s1 = some inst.m_ptr ∧ lookup s2 = some inst.m_ptr) ∨
        (∀ s ∈ t.allDeclarations.elems, lookup s ≠ some inst.m_ptr)) →
      ∃ err, matcher lookup t g = .error err)
    ∧ (∀ g1, matcher lookup t g = .ok g1 →
        ∀ e ∈ g, ∀ inst ∈ e.2.m_instances,
          ∃! s, s ∈ t.allDeclarations.elems ∧ lookup s = some inst.m_ptr) := by
  constructor
  · rintro ⟨e, he, inst, hinst, hbad⟩
    cases hm : matcher lookup t g with
    | error err => exact ⟨err, rfl⟩
    | ok g1 =>
      exfalso
      obtain ⟨name, hmem, hl, _, huniq⟩ := matcher_ok_unique hm e he inst hinst
      rcases hbad with ⟨s1, hs1, s2, hs2, hne, h1, h2⟩ | habsent
      · exact hne ((huniq s1 hs1 h1).trans (huniq s2 hs2 h2).symm)
      · exact habsent name hmem hl
  · intro g1 hm e he inst hinst
    obtain ⟨name, hmem, hl, _, huniq⟩ := matcher_ok_unique hm e he inst hinst
    exact ⟨name, ⟨hmem, hl⟩, fun s hs => huniq s hs.1 hs.2⟩

theorem matcher_refuses_ambiguous_and_absent_witness :
    matcher sampleLookup sampleTable [negPack, opPack 8192] = .error (.ambiguousAddress ⟨1⟩)
    ∧ matcher sampleLookup sampleTable [opPack 7] = .error (.releaseAssert 212)
    ∧ (∃ err, matcher sampleLookup sampleTable [negPack, opPack 8192] = .error err)
    ∧ (∃ err, matcher sampleLookup ⟨⟨["op_a"]⟩, ⟨["op_b", "op_a"]⟩⟩ [opPack 8192] = .error err)
    ∧ (∃ err, matcher sampleLookup sampleTable [opPack 7] = .error err)
    ∧ (∀ e ∈ [negPack], ∀ inst ∈ e.2.m_instances,
        ∃! s, s ∈ negTable.allDeclarations.elems ∧ sampleLookup s = some inst.m_ptr) :=
  ⟨rfl, rfl,
   (matcher_refuses_ambiguous_and_absent sampleLookup sampleTable [negPack, opPack 8192]).1
      ⟨opPack 8192, by simp, ⟨[], 8192, ""⟩, by simp [opPack],
        Or.inl ⟨"op_a", by decide, "op_b", by decide, by decide, rfl, rfl⟩⟩,
   (matcher_refuses_ambiguous_and_absent sampleLookup ⟨⟨["op_a"]⟩, ⟨["op_b", "op_a"]⟩⟩
      [opPack 8192]).1
      ⟨opPack 8192, by simp, ⟨[], 8192, ""⟩, by simp [opPack],
        Or.inl ⟨"op_a", by decide, "op_b", by decide, by decide, rfl, rfl⟩⟩,
   (matcher_refuses_ambiguous_and_absent sampleLookup sampleTable [opPack 7]).1
      ⟨opPack 7, by simp, ⟨[], 7, ""⟩, by simp [opPack], Or.inr (by decide)⟩,
   (matcher_refuses_ambiguous_and_absent sampleLookup negTable [negPack]).2
      [negPackResolved] rfl⟩

/-- C4: if the address of some registered instance is the address of a declared symbol that is
not in the definitions set, the matcher aborts; and after a successful match the symbol name of
every instance is a member of the definitions set. -/
theorem matcher_requires_definition (lookup : String → Option Nat) (t : SymbolTable)
    (g : Registry) :
    ((∃ e ∈ g, ∃ inst ∈ e.2.m_instances, ∃ s ∈ t.allDeclarations.elems,
        lookup s = some inst.m_ptr ∧ s ∉ t.allDefinitions.elems) →
      ∃ err, matcher lookup t g = .error err)
    ∧ (∀ g1, matcher lookup t g = .ok g1 →
        ∀ e1 ∈ g1, ∀ inst1 ∈ e1.2.m_instances, inst1.m_symbolName ∈ t.allDefinitions.elems) := by
  constructor
  · rintro ⟨e, he, inst, hinst, s, hs, hl, hnd⟩
    cases hm : matcher lookup t g with
    | error err => exact ⟨err, rfl⟩
    | ok g1 =>
      exfalso
      obtain ⟨name, _, _, hdef, huniq⟩ := matcher_ok_unique hm e he inst hinst
      exact hnd (huniq s hs hl ▸ hdef)
  · intro g1 hm e1 he1 inst1 hinst1
    obtain ⟨ix, _, hall⟩ := matcher_ok hm
    obtain ⟨e, _, _, _, hinsts⟩ := forall₂_of_mem_right hall e1 he1
    obtain ⟨inst, _, _, _, _, _, hdef⟩ := forall₂_of_mem_right hinsts inst1 hinst1
    exact hdef

theorem matcher_requires_definition_witness :
    matcher sampleLookup sampleTable [negPack, opPack 12288] = .error (.releaseAssert 214)
    ∧ (∃ err, matcher sampleLookup sampleTable [negPack, opPack 12288] = .error err)
    ∧ (∀ e1 ∈ [negPackResolved], ∀ inst1 ∈ e1.2.m_instances,
        inst1.m_symbolName ∈ negTable.allDefinitions.elems) :=
  ⟨rfl, (matcher_requires_definition sampleLookup sampleTable [negPack, opPack 12288]).1
      ⟨opPack 12288, by simp, ⟨[], 12288, ""⟩, by simp [opPack],
        "ext", by decide, rfl, by decide⟩,
   (matcher_requires_definition sampleLookup negTable [negPack]).2 [negPackResolved] rfl⟩

/-! ## Theorems: the registration hook -/

theorem makeParam_canonical {ParseTypeName : String → String} {var : MetaVar}
    {bvar : BoilerplateParam} (h : makeParam ParseTypeName var = .ok bvar) :
    CanonicalParam ParseTypeName var bvar := by
  unfold makeParam at h
  split_ifs at h with h1 h2 h3 <;> simp only [Except.ok.injEq] at h <;> subst h
  · exact ⟨rfl, rfl, by simp [h1], by simp [h1], fun _ => rfl⟩
  · exact ⟨rfl, rfl, by simp [h2], fun _ => rfl, by simp [h2]⟩
  · exact ⟨rfl, rfl, fun _ => rfl, by simp [h3], by simp [h3]⟩

theorem makeParam_total (ParseTypeName : String → String) (var : MetaVar)
    (h : KnownKind var.m_type) : ∃ bvar, makeParam ParseTypeName var = .ok bvar := by
  unfold makeParam
  rcases h with h | h | h <;> simp [h]

theorem registerParams_spec {ParseTypeName : String → String} {vars : List MetaVar}
    {p p1 : BoilerplatePack} (h : registerParams ParseTypeName vars p = .ok p1) :
    p1.m_instances = p.m_instances ∧
      ∃ ps, p1.m_params = p.m_params ++ ps ∧
        List.Forall₂ (CanonicalParam ParseTypeName) vars ps := by
  induction vars generalizing p with
  | nil =>
    simp only [registerParams, Except.ok.injEq] at h
    subst h
    exact ⟨rfl, [], by simp, List.Forall₂.nil⟩
  | cons var rest ih =>
    simp only [registerParams] at h
    cases hm : makeParam ParseTypeName var with
    | error e => simp [hm] at h
    | ok bvar =>
      simp only [hm] at h
      obtain ⟨h1, ps, h2, h3⟩ := ih h
      exact ⟨h1, bvar :: ps, by simp [h2], List.Forall₂.cons (makeParam_canonical hm) h3⟩

theorem registerParams_total (ParseTypeName : String → String) (vars : List MetaVar)
    (p : BoilerplatePack) (h : ∀ var ∈ vars, KnownKind var.m_type) :
    ∃ p1, registerParams ParseTypeName vars p = .ok p1 := by
  induction vars generalizing p with
  | nil => exact ⟨p, rfl⟩
  | cons var rest ih =>
    obtain ⟨bvar, hb⟩ := makeParam_total ParseTypeName var (h var (List.mem_cons_self _ _))
    simp only [registerParams, hb]
    exact ih _ (fun v hv => h v (List.mem_cons_of_mem _ hv))

theorem registerInstances_eq (insts : List MetaVarMaterializedInstance) (p : BoilerplatePack) :
    registerInstances insts p
      = ⟨p.m_params, p.m_instances ++ insts.map (fun inst => ⟨inst.m_values, inst.m_fnPtr, ""⟩)⟩ := by
  induction insts generalizing p with
  | nil => simp [registerInstances]
  | cons inst rest ih => simp [registerInstances, ih]

/-- A returning call of the hook appends one entry of the given kind whose parameters are the
canonical ones. -/
theorem register_boilerplate_spec {ParseTypeName : String → String} {nodeType : AstNodeType}
    {list : MetaVarMaterializedList} {g g1 : Registry}
    (h : __pochivm_register_fast_interp_boilerplate__ ParseTypeName nodeType list g = .ok g1) :
    ∃ bp, g1 = g ++ [(nodeType, bp)] ∧
      List.Forall₂ (CanonicalParam ParseTypeName) list.m_metavars bp.m_params := by
  unfold __pochivm_register_fast_interp_boilerplate__ at h
  cases hp : registerParams ParseTypeName list.m_metavars ⟨[], []⟩ with
  | error e => simp [hp] at h
  | ok p =>
    simp only [hp, Except.ok.injEq] at h
    obtain ⟨_, ps, h2, h3⟩ := registerParams_spec hp
    refine ⟨_, h.symm, ?_⟩
    rw [registerInstances_eq]
    simpa [h2] using h3

theorem register_boilerplate_total (ParseTypeName : String → String) (nodeType : AstNodeType)
    (list : MetaVarMaterializedList) (g : Registry)
    (h : ∀ var ∈ list.m_metavars, KnownKind var.m_type) :
    ∃ g1, __pochivm_register_fast_interp_boilerplate__ ParseTypeName nodeType list g = .ok g1 := by
  obtain ⟨p, hp⟩ := registerParams_total ParseTypeName list.m_metavars ⟨[], []⟩ h
  exact ⟨g ++ [(nodeType, registerInstances list.m_instances p)], by
    simp only [__pochivm_register_fast_interp_boilerplate__, hp]⟩

theorem registerAll_spec {ParseTypeName : String → String}
    {calls : List (AstNodeType × MetaVarMaterializedList)} {g g1 : Registry}
    (h : registerAll ParseTypeName calls g = .ok g1) :
    ∃ packs, g1 = g ++ packs ∧ packs.map Prod.fst = calls.map Prod.fst := by
  induction calls generalizing g with
  | nil =>
    simp only [registerAll, Except.ok.injEq] at h
    exact ⟨[], by simp [h], rfl⟩
  | cons c rest ih =>
    obtain ⟨nodeType, list⟩ := c
    simp only [registerAll] at h
    cases hb : __pochivm_register_fast_interp_boilerplate__ ParseTypeName nodeType list g with
    | error e => simp [hb] at h
    | ok g2 =>
      simp only [hb] at h
      obtain ⟨bp, hg2, _⟩ := register_boilerplate_spec hb
      obtain ⟨packs, hg1, hk⟩ := ih h
      exact ⟨(nodeType, bp) :: packs, by simp [hg1, hg2], by simp [hk]⟩

/-- C6: a call of the hook that returns leaves the registry equal to the old registry followed
by exactly one new entry, of the given node kind; and after a sequence of returning calls the
registry is the old registry followed by one entry per call, with the node kinds in call order. -/
theorem registry_append_only (ParseTypeName : String → String) (g : Registry) :
    (∀ nodeType list g1,
        __pochivm_register_fast_interp_boilerplate__ ParseTypeName nodeType list g = .ok g1 →
        ∃ bp, g1 = g ++ [(nodeType, bp)])
    ∧ (∀ calls g1, registerAll ParseTypeName calls g = .ok g1 →
        ∃ packs, g1 = g ++ packs ∧ packs.map Prod.fst = calls.map Prod.fst) := by
  constructor
  · intro nodeType list g1 h
    obtain ⟨bp, hbp, _⟩ := register_boilerplate_spec h
    exact ⟨bp, hbp⟩
  · intro calls g1 h
    exact registerAll_spec h

theorem registry_append_only_witness :
    (∃ bp, [negPack, opPack 7] = [negPack] ++ [((⟨1⟩ : AstNodeType), bp)])
    ∧ (∃ packs, [negPack, opPack 7, opPack 9] = [negPack] ++ packs ∧
        packs.map Prod.fst = [(⟨1⟩, opList 7), (⟨1⟩, opList 9)].map Prod.fst) :=
  ⟨(registry_append_only (fun s => s) [negPack]).1 ⟨1⟩ (opList 7) [negPack, opPack 7] rfl,
   (registry_append_only (fun s => s) [negPack]).2 [(⟨1⟩, opList 7), (⟨1⟩, opList 9)]
      [negPack, opPack 7, opPack 9] rfl⟩

/-- C7 as the code has it: the hook does not look at the node kinds already registered. A call
with a kind that the registry already holds, on a list whose meta-variables all have a recognised
kind, returns and appends one more entry of that kind, so that the kind then occurs at least
twice. -/
theorem duplicate_kind_is_appended (ParseTypeName : String → String) (g : Registry)
    (nodeType : AstNodeType) (list : MetaVarMaterializedList)
    (hk : ∀ var ∈ list.m_metavars, KnownKind var.m_type)
    (hdup : ∃ bp0, (nodeType, bp0) ∈ g) :
    ∃ bp,
      __pochivm_register_fast_interp_boilerplate__ ParseTypeName nodeType list g
        = .ok (g ++ [(nodeType, bp)]) ∧
      2 ≤ ((g ++ [(nodeType, bp)]).map Prod.fst).count nodeType := by
  obtain ⟨g1, h1⟩ := register_boilerplate_total ParseTypeName nodeType list g hk
  obtain ⟨bp, hbp, _⟩ := register_boilerplate_spec h1
  refine ⟨bp, by rw [h1, hbp], ?_⟩
  obtain ⟨bp0, h0⟩ := hdup
  have hpos : 0 < (g.map Prod.fst).count nodeType :=
    List.count_pos_iff.mpr (List.mem_map.mpr ⟨_, h0, rfl⟩)
  simp only [List.map_append, List.map_cons, List.map_nil, List.count_append,
    List.count_singleton_self]
  omega

theorem duplicate_kind_is_appended_witness :
    ∃ bp,
      __pochivm_register_fast_interp_boilerplate__ (fun s => s) ⟨0⟩ negList [negPack]
        = .ok ([negPack] ++ [(⟨0⟩, bp)]) ∧
      2 ≤ (([negPack] ++ [((⟨0⟩ : AstNodeType), bp)]).map Prod.fst).count ⟨0⟩ :=
  duplicate_kind_is_appended (fun s => s) [negPack] ⟨0⟩ negList (by decide)
    ⟨negPack.2, by simp [negPack]⟩

/-- C7, counterexample: the kind with ordinal 0 is registered twice, by two calls of the hook
from the empty registry; the second call is not fatal and adds a second entry of that kind. -/
theorem duplicate_registration_not_fatal :
    __pochivm_register_fast_interp_boilerplate__ (fun s => s) ⟨0⟩ negList [] = .ok [negPack]
    ∧ __pochivm_register_fast_interp_boilerplate__ (fun s => s) ⟨0⟩ negList [negPack] = .ok [negPack, negPack]
    ∧ ¬ (∀ (g : Registry) (nodeType : AstNodeType) (list : MetaVarMaterializedList),
          (∃ bp0, (nodeType, bp0) ∈ g) →
          ∃ err, __pochivm_register_fast_interp_boilerplate__ (fun s => s) nodeType list g = .error err) := by
  refine ⟨rfl, rfl, ?_⟩
  intro h
  obtain ⟨err, herr⟩ := h [negPack] ⟨0⟩ negList ⟨negPack.2, by simp [negPack]⟩
  have h2 : __pochivm_register_fast_interp_boilerplate__ (fun s => s) ⟨0⟩ negList [negPack] = .ok [negPack, negPack] := rfl
  rw [h2] at herr
  cases herr

/-- C8: for a list whose meta-variables all have one of the three recognised kinds, the hook
returns and the pack it appends has one parameter per meta-variable, in the same order, each with
the kind and the name of its meta-variable and the canonical type name of its kind. -/
theorem canonical_type_names (ParseTypeName : String → String) (g : Registry)
    (nodeType : AstNodeType) (list : MetaVarMaterializedList)
    (hk : ∀ var ∈ list.m_metavars, KnownKind var.m_type) :
    ∃ bp,
      __pochivm_register_fast_interp_boilerplate__ ParseTypeName nodeType list g
        = .ok (g ++ [(nodeType, bp)]) ∧
      bp.m_params.length = list.m_metavars.length ∧
      List.Forall₂ (CanonicalParam ParseTypeName) list.m_metavars bp.m_params := by
  obtain ⟨g1, h1⟩ := register_boilerplate_total ParseTypeName nodeType list g hk
  obtain ⟨bp, hbp, hcan⟩ := register_boilerplate_spec h1
  exact ⟨bp, by rw [h1, hbp], hcan.length_eq.symm, hcan⟩

theorem canonical_type_names_witness :
    ∃ bp, __pochivm_register_fast_interp_boilerplate__ (fun s => s) ⟨0⟩ mixedList [] = .ok ([] ++ [(⟨0⟩, bp)]) ∧
      bp.m_params.length = mixedList.m_metavars.length ∧
      List.Forall₂ (CanonicalParam (fun s => s)) mixedList.m_metavars bp.m_params :=
  canonical_type_names (fun s => s) [] ⟨0⟩ mixedList (by decide)

/-! ## Theorems: the loader walk -/

theorem qualifies_iff (l : LinkageTypes) : qualifies l = true ↔ QualifyingLinkage l := by
  cases l <;> simp [qualifies, QualifyingLinkage]

theorem tableInv_init : TableInv [] ⟨StdSet.empty, StdSet.empty⟩ := by
  intro n
  simp [StdSet.empty]

theorem walkFunction_spec {done : List llvm.Function} {f : llvm.Function} {t : SymbolTable}
    (hinv : TableInv done t) (hfresh : ∀ g ∈ done, g.getName ≠ f.getName) :
    ∃ t1, walkFunction f t = .ok t1 ∧ TableInv (done ++ [f]) t1 := by
  have hdecl : f.getName ∉ t.allDeclarations.elems := by
    intro hm
    obtain ⟨g, hg, hn, _⟩ := (hinv f.getName).1.mp hm
    exact hfresh g hg hn
  have hdef : f.getName ∉ t.allDefinitions.elems := by
    intro hm
    obtain ⟨g, hg, hn, _⟩ := (hinv f.getName).2.mp hm
    exact hfresh g hg hn
  have c1 : t.allDeclarations.count f.getName = 0 := by simp [StdSet.count, hdecl]
  have c2 : t.allDefinitions.count f.getName = 0 := by simp [StdSet.count, hdef]
  by_cases hq : qualifies f.getLinkage = true
  · have hQ := (qualifies_iff _).mp hq
    cases he : f.empty with
    | true =>
      refine ⟨⟨t.allDefinitions, t.allDeclarations.insert f.getName⟩,
        by simp [walkFunction, noteDefinition, hq, he, c1], ?_⟩
      intro n
      simp only [StdSet.mem_insert, (hinv n).1, (hinv n).2, List.mem_append, List.mem_singleton]
      constructor
      · constructor
        · rintro (rfl | ⟨g, hg, h1, h2⟩)
          · exact ⟨f, Or.inr rfl, rfl, hQ⟩
          · exact ⟨g, Or.inl hg, h1, h2⟩
        · rintro ⟨g, hg | rfl, h1, h2⟩
          · exact Or.inr ⟨g, hg, h1, h2⟩
          · exact Or.inl h1.symm
      · constructor
        · rintro ⟨g, hg, h1, h2, h3⟩
          exact ⟨g, Or.inl hg, h1, h2, h3⟩
        · rintro ⟨g, hg | rfl, h1, h2, h3⟩
          · exact ⟨g, hg, h1, h2, h3⟩
          · rw [he] at h3; cases h3
    | false =>
      refine ⟨⟨t.allDefinitions.insert f.getName, t.allDeclarations.insert f.getName⟩,
        by simp [walkFunction, noteDefinition, hq, he, c1, c2], ?_⟩
      intro n
      simp only [StdSet.mem_insert, (hinv n).1, (hinv n).2, List.mem_append, List.mem_singleton]
      constructor
      · constructor
        · rintro (rfl | ⟨g, hg, h1, h2⟩)
          · exact ⟨f, Or.inr rfl, rfl, hQ⟩
          · exact ⟨g, Or.inl hg, h1, h2⟩
        · rintro ⟨g, hg | rfl, h1, h2⟩
          · exact Or.inr ⟨g, hg, h1, h2⟩
          · exact Or.inl h1.symm
      · constructor
        · rintro (rfl | ⟨g, hg, h1, h2, h3⟩)
          · exact ⟨f, Or.inr rfl, rfl, hQ, he⟩
          · exact ⟨g, Or.inl hg, h1, h2, h3⟩
        · rintro ⟨g, hg | rfl, h1, h2, h3⟩
          · exact Or.inr ⟨g, hg, h1, h2, h3⟩
          · exact Or.inl h1.symm
  · have hQ : ¬ QualifyingLinkage f.getLinkage := fun h => hq ((qualifies_iff _).mpr h)
    refine ⟨t, by simp [walkFunction, hq], ?_⟩
    intro n
    simp only [(hinv n).1, (hinv n).2, List.mem_append, List.mem_singleton]
    constructor
    · constructor
      · rintro ⟨g, hg, h1, h2⟩
        exact ⟨g, Or.inl hg, h1, h2⟩
      · rintro ⟨g, hg | rfl, h1, h2⟩
        · exact ⟨g, hg, h1, h2⟩
        · exact absurd h2 hQ
    · constructor
      · rintro ⟨g, hg, h1, h2, h3⟩
        exact ⟨g, Or.inl hg, h1, h2, h3⟩
      · rintro ⟨g, hg | rfl, h1, h2, h3⟩
        · exact ⟨g, hg, h1, h2, h3⟩
        · exact absurd h2 hQ

theorem walkFunctions_spec (fs done : List llvm.Function) (t : SymbolTable)
    (hinv : TableInv done t) (hn : ((done ++ fs).map (fun f => f.getName)).Nodup) :
    ∃ t1, walkFunctions fs t = .ok t1 ∧ TableInv (done ++ fs) t1 := by
  induction fs generalizing done t with
  | nil => exact ⟨t, rfl, by simpa using hinv⟩
  | cons f rest ih =>
    have hfresh : ∀ g ∈ done, g.getName ≠ f.getName := by
      intro g hg heq
      rw [List.map_append, List.nodup_append] at hn
      exact hn.2.2 (List.mem_map.mpr ⟨g, hg, rfl⟩)
        (List.mem_map.mpr ⟨f, List.mem_cons_self _ _, heq.symm⟩)
    obtain ⟨t1, h1, hinv1⟩ := walkFunction_spec hinv hfresh
    have hn1 : (((done ++ [f]) ++ rest).map (fun f => f.getName)).Nodup := by
      simpa using hn
    obtain ⟨t2, h2, hinv2⟩ := ih (done ++ [f]) t1 hinv1 hn1
    refine ⟨t2, by simp only [walkFunctions, h1, h2], ?_⟩
    simpa using hinv2

/-- C9: for a module whose functions have pairwise distinct names the walk of the loader
completes, and then a name is in `allDeclarations` exactly when its function has one of the five
qualifying linkages, and in `allDefinitions` exactly when it has in addition a body. Hence every
definition is a declaration, and the name of a function with another linkage is in neither set,
with or without a body. -/
theorem loader_classifies_symbols (module : llvm.Module)
    (hn : (module.functions.map (fun f => f.getName)).Nodup) :
    ∃ t, loadSymbols module = .ok t ∧
      (∀ n, n ∈ t.allDeclarations.elems ↔
        ∃ f ∈ module.functions, f.getName = n ∧ QualifyingLinkage f.getLinkage) ∧
      (∀ n, n ∈ t.allDefinitions.elems ↔
        ∃ f ∈ module.functions, f.getName = n ∧ QualifyingLinkage f.getLinkage ∧
          f.empty = false) ∧
      (∀ n, n ∈ t.allDefinitions.elems → n ∈ t.allDeclarations.elems) ∧
      (∀ f ∈ module.functions, ¬ QualifyingLinkage f.getLinkage →
        f.getName ∉ t.allDeclarations.elems ∧ f.getName ∉ t.allDefinitions.elems) := by
  obtain ⟨t, ht, hinv⟩ := walkFunctions_spec module.functions [] _ tableInv_init (by simpa using hn)
  simp only [List.nil_append] at hinv
  have hsub : ∀ n, n ∈ t.allDefinitions.elems → n ∈ t.allDeclarations.elems := by
    intro n h
    obtain ⟨f, hf, h1, h2, _⟩ := (hinv n).2.mp h
    exact (hinv n).1.mpr ⟨f, hf, h1, h2⟩
  have hout : ∀ f ∈ module.functions, ¬ QualifyingLinkage f.getLinkage →
      f.getName ∉ t.allDeclarations.elems := by
    intro f hf hq hmem
    obtain ⟨g, hg, h1, h2⟩ := (hinv f.getName).1.mp hmem
    have : g = f := List.inj_on_of_nodup_map hn hg hf h1
    exact hq (this ▸ h2)
  exact ⟨t, ht, fun n => (hinv n).1, fun n => (hinv n).2, hsub,
    fun f hf hq => ⟨hout f hf hq, fun h => hout f hf hq (hsub _ h)⟩⟩

theorem loader_classifies_symbols_witness :
    ∃ t, loadSymbols negModule = .ok t ∧
      (∀ n, n ∈ t.allDeclarations.elems ↔
        ∃ f ∈ negModule.functions, f.getName = n ∧ QualifyingLinkage f.getLinkage) ∧
      (∀ n, n ∈ t.allDefinitions.elems ↔
        ∃ f ∈ negModule.functions, f.getName = n ∧ QualifyingLinkage f.getLinkage ∧
          f.empty = false) ∧
      (∀ n, n ∈ t.allDefinitions.elems → n ∈ t.allDeclarations.elems) ∧
      (∀ f ∈ negModule.functions, ¬ QualifyingLinkage f.getLinkage →
        f.getName ∉ t.allDeclarations.elems ∧ f.getName ∉ t.allDefinitions.elems) :=
  loader_classifies_symbols negModule (by decide)

/-! ## Theorems: the whole run -/

theorem find_eq_none (s : String) (c : Char) : find s c = none ↔ c ∉ s.data := by
  unfold find
  by_cases hm : c ∈ s.data
  · have hlt : List.indexOf c s.data < s.data.length := List.indexOf_lt_length.mpr hm
    rw [if_pos hlt]
    exact ⟨fun h => (by cases h), fun h => absurd hm h⟩
  · have hlt : ¬ List.indexOf c s.data < s.data.length := fun h => hm (List.indexOf_lt_length.mp h)
    rw [if_neg hlt]
    exact ⟨fun _ => hm, fun _ => rfl⟩

theorem checkArgs_error_iff (argv : List String) :
    (∃ err, checkArgs argv = .error err) ↔
      (argv.length ≠ 3 ∨ ';' ∈ (argv.getD 1 "").data ∨ ';' ∈ (argv.getD 2 "").data) := by
  unfold checkArgs
  by_cases h1 : argv.length ≠ 3
  · rw [if_pos h1]
    exact ⟨fun _ => Or.inl h1, fun _ => ⟨_, rfl⟩⟩
  · rw [if_neg h1]
    dsimp only
    by_cases h2 : find (argv.getD 1 "") ';' ≠ none
    · rw [if_pos h2]
      have h2m : ';' ∈ (argv.getD 1 "").data := by
        by_contra hc
        exact h2 ((find_eq_none _ _).mpr hc)
      exact ⟨fun _ => Or.inr (Or.inl h2m), fun _ => ⟨_, rfl⟩⟩
    · rw [if_neg h2]
      have h2m : ';' ∉ (argv.getD 1 "").data := (find_eq_none _ _).mp (not_not.mp h2)
      by_cases h3 : find (argv.getD 2 "") ';' ≠ none
      · rw [if_pos h3]
        have h3m : ';' ∈ (argv.getD 2 "").data := by
          by_contra hc
          exact h3 ((find_eq_none _ _).mpr hc)
        exact ⟨fun _ => Or.inr (Or.inr h3m), fun _ => ⟨_, rfl⟩⟩
      · rw [if_neg h3]
        have h3m : ';' ∉ (argv.getD 2 "").data := (find_eq_none _ _).mp (not_not.mp h3)
        constructor
        · rintro ⟨err, herr⟩
          cases herr
        · rintro (h | h | h)
          · exact absurd h h1
          · exact absurd h h2m
          · exact absurd h h3m

theorem checkArgs_ok {argv : List String} {p : String × String} (h : checkArgs argv = .ok p) :
    p = (argv.getD 1 "", argv.getD 2 "") := by
  unfold checkArgs at h
  simp only at h
  split_ifs at h
  simp only [Except.ok.injEq] at h
  exact h.symm

theorem main_of_bad_args {argv : List String} {err : Abort} (env : Env)
    (h : checkArgs argv = .error err) : main env argv = ⟨"", [], .error err⟩ := by
  simp only [main, h]

theorem main_of_good_args {argv : List String} {bc_file obj_file : String} (env : Env)
    (h : checkArgs argv = .ok (bc_file, obj_file)) :
    (main env argv).parsedFiles = [bc_file] ∧
      ((main env argv).stdout = "" ∨ (main env argv).result = .ok 0) := by
  simp only [main, h]
  cases h2 : env.parseIRFile bc_file with
  | none => simp
  | some module =>
    cases h3 : loadSymbols module with
    | error e => simp [h3]
    | ok t =>
      cases h4 : buildAndMatch env module t with
      | error e => simp [h3, h4]
      | ok g => simp [h3, h4]

/-- C5: when the run ends in a fatal error, whichever it is, standard output is empty: nothing
of the manifest has been written, not even for packs that resolved before the failing one. -/
theorem no_partial_manifest (env : Env) (argv : List String) (err : Abort)
    (h : (main env argv).result = .error err) : (main env argv).stdout = "" := by
  cases hc : checkArgs argv with
  | error e => rw [main_of_bad_args env hc]
  | ok p =>
    obtain ⟨bc_file, obj_file⟩ := p
    rcases (main_of_good_args env hc).2 with h1 | h1
    · exact h1
    · rw [h1] at h
      cases h

theorem no_partial_manifest_witness :
    (main (sampleEnv foldedModule [(⟨0⟩, negList), (⟨1⟩, opList 8192)])
        ["tool", "lib.bc", "lib.o"]).result = .error (.ambiguousAddress ⟨1⟩)
    ∧ (main (sampleEnv foldedModule [(⟨0⟩, negList), (⟨1⟩, opList 8192)])
        ["tool", "lib.bc", "lib.o"]).stdout = "" :=
  ⟨rfl, no_partial_manifest _ _ (.ambiguousAddress ⟨1⟩) rfl⟩

/-- C10: argument validation fails exactly when `argc` is not 3 or one of the two paths contains
a semicolon; the run then aborts without any call of the IR parser, and a run that aborts without
a call of the IR parser has such a command line. With three arguments and two paths free of
semicolons the validation passes and the parser is called on the bitcode path. -/
theorem bad_command_line (env : Env) (argv : List String) :
    ((∃ err, checkArgs argv = .error err) ↔
      (argv.length ≠ 3 ∨ ';' ∈ (argv.getD 1 "").data ∨ ';' ∈ (argv.getD 2 "").data))
    ∧ (((∃ err, (main env argv).result = .error err) ∧ (main env argv).parsedFiles = []) ↔
      (argv.length ≠ 3 ∨ ';' ∈ (argv.getD 1 "").data ∨ ';' ∈ (argv.getD 2 "").data))
    ∧ (argv.length = 3 → ';' ∉ (argv.getD 1 "").data → ';' ∉ (argv.getD 2 "").data →
        checkArgs argv = .ok (argv.getD 1 "", argv.getD 2 "") ∧
        (main env argv).parsedFiles = [argv.getD 1 ""]) := by
  refine ⟨checkArgs_error_iff argv, ?_, ?_⟩
  · rw [← checkArgs_error_iff]
    constructor
    · rintro ⟨_, hp⟩
      cases hc : checkArgs argv with
      | error e => exact ⟨e, rfl⟩
      | ok p =>
        obtain ⟨bc_file, obj_file⟩ := p
        rw [(main_of_good_args env hc).1] at hp
        cases hp
    · rintro ⟨e, he⟩
      rw [main_of_bad_args env he]
      exact ⟨⟨e, rfl⟩, rfl⟩
  · intro h1 h2 h3
    cases hc : checkArgs argv with
    | error e =>
      have := (checkArgs_error_iff argv).mp ⟨e, hc⟩
      rcases this with h | h | h
      · exact absurd h1 h
      · exact absurd h h2
      · exact absurd h h3
    | ok p =>
      have hp := checkArgs_ok hc
      subst hp
      exact ⟨rfl, (main_of_good_args env hc).1⟩

theorem bad_command_line_witness :
    checkArgs ["tool", "lib.bc", "lib.o"] = .ok ("lib.bc", "lib.o") ∧
    (main (sampleEnv negModule []) ["tool", "lib.bc", "lib.o"]).parsedFiles = ["lib.bc"] :=
  (bad_command_line (sampleEnv negModule []) ["tool", "lib.bc", "lib.o"]).2.2
    (by decide) (by decide) (by decide)

/-! ## Theorems: primitive types -/

/-- C11: the list enumerated by `FOR_EACH_PRIMITIVE_TYPE` is bool, int8_t, int16_t, int32_t,
int64_t, uint8_t, uint16_t, uint32_t, uint64_t, float, double in this order, for every `F` it is
the integer list followed by the float list, and the three counts are 11, 9 and 2, the first
being the sum of the other two. -/
theorem primitive_type_domain :
    FOR_EACH_PRIMITIVE_TYPE (fun ty => ty)
      = [PrimitiveType.bool, PrimitiveType.int8_t, PrimitiveType.int16_t, PrimitiveType.int32_t,
         PrimitiveType.int64_t, PrimitiveType.uint8_t, PrimitiveType.uint16_t,
         PrimitiveType.uint32_t, PrimitiveType.uint64_t, PrimitiveType.float,
         PrimitiveType.double]
    ∧ (∀ (α : Type) (F : PrimitiveType → α),
        FOR_EACH_PRIMITIVE_TYPE F = (FOR_EACH_PRIMITIVE_TYPE (fun ty => ty)).map F ∧
        FOR_EACH_PRIMITIVE_TYPE F
          = FOR_EACH_PRIMITIVE_INT_TYPE F ++ FOR_EACH_PRIMITIVE_FLOAT_TYPE F)
    ∧ FOR_EACH_PRIMITIVE_INT_TYPE (fun ty => ty)
      = [PrimitiveType.bool, PrimitiveType.int8_t, PrimitiveType.int16_t, PrimitiveType.int32_t,
         PrimitiveType.int64_t, PrimitiveType.uint8_t, PrimitiveType.uint16_t,
         PrimitiveType.uint32_t, PrimitiveType.uint64_t]
    ∧ FOR_EACH_PRIMITIVE_FLOAT_TYPE (fun ty => ty) = [PrimitiveType.float, PrimitiveType.double]
    ∧ Ast.x_num_primitive_types = 11
    ∧ Ast.x_num_primitive_int_types = 9
    ∧ Ast.x_num_primitive_float_types = 2
    ∧ Ast.x_num_primitive_types
        = Ast.x_num_primitive_int_types + Ast.x_num_primitive_float_types := by
  refine ⟨rfl, fun α F => ⟨rfl, rfl⟩, rfl, rfl, ?_, ?_, ?_, ?_⟩ <;> decide

/-! ## Theorems: operand shapes -/

/-- C14: `cond<T, osc>()` is true exactly when `T` is a valid index type and either `osc` is
`VARPTR_VAR` or `VARPTR_LIT_NONZERO` or `T` is `int32_t`; so for a shape that is not one of the
two array-element shapes no index type other than `int32_t` is accepted. -/
theorem cond_iff_valid_and_shape {CppType Osc : Type} [DecidableEq CppType] [DecidableEq Osc]
    (is_valid_index_type : CppType → Bool) (int32_t : CppType)
    (VARPTR_VAR VARPTR_LIT_NONZERO : Osc) (T : CppType) (osc : Osc) :
    (FIOperandShapeCategoryHelper.cond is_valid_index_type int32_t VARPTR_VAR
        VARPTR_LIT_NONZERO T osc = true ↔
      is_valid_index_type T = true ∧
        (osc = VARPTR_VAR ∨ osc = VARPTR_LIT_NONZERO ∨ T = int32_t))
    ∧ (osc ≠ VARPTR_VAR → osc ≠ VARPTR_LIT_NONZERO → T ≠ int32_t →
        FIOperandShapeCategoryHelper.cond is_valid_index_type int32_t VARPTR_VAR
          VARPTR_LIT_NONZERO T osc = false) := by
  unfold FIOperandShapeCategoryHelper.cond
  by_cases hv : is_valid_index_type T = true <;> by_cases h1 : osc = VARPTR_VAR <;>
    by_cases h2 : osc = VARPTR_LIT_NONZERO <;> by_cases h3 : T = int32_t <;>
    simp [hv, h1, h2, h3]

theorem cond_iff_valid_and_shape_witness :
    FIOperandShapeCategoryHelper.cond sampleValidIndex PrimitiveType.int32_t
        SampleShape.VARPTR_VAR SampleShape.VARPTR_LIT_NONZERO PrimitiveType.uint64_t
        SampleShape.VARPTR_VAR = true
    ∧ FIOperandShapeCategoryHelper.cond sampleValidIndex PrimitiveType.int32_t
        SampleShape.VARPTR_VAR SampleShape.VARPTR_LIT_NONZERO PrimitiveType.uint64_t
        SampleShape.ZERO = false :=
  ⟨(cond_iff_valid_and_shape sampleValidIndex PrimitiveType.int32_t SampleShape.VARPTR_VAR
      SampleShape.VARPTR_LIT_NONZERO PrimitiveType.uint64_t SampleShape.VARPTR_VAR).1.mpr
      ⟨rfl, Or.inl rfl⟩,
   (cond_iff_valid_and_shape sampleValidIndex PrimitiveType.int32_t SampleShape.VARPTR_VAR
      SampleShape.VARPTR_LIT_NONZERO PrimitiveType.uint64_t SampleShape.ZERO).2
      (by decide) (by decide) (by decide)⟩

/-! ## Theorems: the instances of a registered pack -/

/-- The pack appended by a returning call of the hook: as many parameters as meta-variables, and
the instances of the list, each with an empty symbol name. -/
theorem register_boilerplate_pack {ParseTypeName : String → String} {nodeType : AstNodeType}
    {list : MetaVarMaterializedList} {g g1 : Registry}
    (h : __pochivm_register_fast_interp_boilerplate__ ParseTypeName nodeType list g = .ok g1) :
    ∃ bp, g1 = g ++ [(nodeType, bp)] ∧ bp.m_params.length = list.m_metavars.length ∧
      bp.m_instances
        = list.m_instances.map (fun inst => ⟨inst.m_values, inst.m_fnPtr, ""⟩) := by
  unfold __pochivm_register_fast_interp_boilerplate__ at h
  cases hp : registerParams ParseTypeName list.m_metavars ⟨[], []⟩ with
  | error e => simp [hp] at h
  | ok p =>
    simp only [hp, Except.ok.injEq] at h
    obtain ⟨hi, ps, h2, h3⟩ := registerParams_spec hp
    refine ⟨registerInstances list.m_instances p, h.symm, ?_, ?_⟩
    · rw [registerInstances_eq]
      simp [h2, h3.length_eq]
    · rw [registerInstances_eq]
      simp [hi]

/-- One returning call of the hook: it appends one pack, which has as many parameters as the list
has meta-variables and whose instances are the instances of the list, in the same order, each
with its values and function address and an empty symbol name. The instances of the new pack
have as many values as the pack has parameters exactly when this holds of the list, and then, if
it held in every pack of the registry before the call, it holds in every pack after it. -/
theorem hook_keeps_instance_arity (ParseTypeName : String → String) (nodeType : AstNodeType)
    (list : MetaVarMaterializedList) (g g1 : Registry)
    (h : __pochivm_register_fast_interp_boilerplate__ ParseTypeName nodeType list g = .ok g1) :
    (∃ bp, g1 = g ++ [(nodeType, bp)] ∧ bp.m_params.length = list.m_metavars.length ∧
      bp.m_instances = list.m_instances.map (fun inst => ⟨inst.m_values, inst.m_fnPtr, ""⟩) ∧
      ((∀ binst ∈ bp.m_instances, binst.m_paramValues.length = bp.m_params.length) ↔
        (∀ inst ∈ list.m_instances, inst.m_values.length = list.m_metavars.length)))
    ∧ ((∀ inst ∈ list.m_instances, inst.m_values.length = list.m_metavars.length) →
        (∀ e ∈ g, ∀ binst ∈ e.2.m_instances, binst.m_paramValues.length = e.2.m_params.length) →
        ∀ e ∈ g1, ∀ binst ∈ e.2.m_instances,
          binst.m_paramValues.length = e.2.m_params.length) := by
  obtain ⟨bp, hg1, hlen, hinsts⟩ := register_boilerplate_pack h
  have hiff : (∀ binst ∈ bp.m_instances, binst.m_paramValues.length = bp.m_params.length) ↔
      (∀ inst ∈ list.m_instances, inst.m_values.length = list.m_metavars.length) := by
    rw [hinsts, hlen]
    constructor
    · intro hb inst hinst
      exact hb ⟨inst.m_values, inst.m_fnPtr, ""⟩ (List.mem_map.mpr ⟨inst, hinst, rfl⟩)
    · intro hl binst hb
      obtain ⟨inst, hinst, rfl⟩ := List.mem_map.mp hb
      exact hl inst hinst
  refine ⟨⟨bp, hg1, hlen, hinsts, hiff⟩, ?_⟩
  intro hl hg e he
  rw [hg1] at he
  rcases List.mem_append.mp he with he | he
  · exact hg e he
  · rw [List.mem_singleton] at he
    subst he
    exact hiff.mpr hl

theorem hook_keeps_instance_arity_witness :
    __pochivm_register_fast_interp_boilerplate__ (fun s => s) ⟨0⟩ negList [] = .ok [negPack]
    ∧ [negPack].all (fun e => e.2.m_instances.all
        (fun binst => decide (binst.m_paramValues.length = e.2.m_params.length))) = true :=
  ⟨rfl, List.all_eq_true.mpr (fun e he => List.all_eq_true.mpr (fun binst hb =>
    decide_eq_true
      ((hook_keeps_instance_arity (fun s => s) ⟨0⟩ negList [] [negPack] rfl).2
        (by decide) (by simp) e he binst hb)))⟩

/-- The number of values of an instance comes from the list handed to the hook, which copies
it without counting: on a hand-made list whose instance has no value (no materialized list is
like that, see `materialize_arity`) the instance is registered as it is. -/
theorem hook_admits_short_instance :
    __pochivm_register_fast_interp_boilerplate__ (fun s => s) ⟨0⟩ shortList []
      = .ok [(⟨0⟩, ⟨[⟨MetaVarType.BOOL, "b", "bool"⟩], [⟨[], 4096, ""⟩]⟩)]
    ∧ ¬ (∀ (list : MetaVarMaterializedList) (g1 : Registry),
          __pochivm_register_fast_interp_boilerplate__ (fun s => s) ⟨0⟩ list [] = .ok g1 →
          ∀ e ∈ g1, ∀ binst ∈ e.2.m_instances,
            binst.m_paramValues.length = e.2.m_params.length) := by
  refine ⟨rfl, ?_⟩
  intro hall
  have hbad := hall shortList _ rfl (⟨0⟩, ⟨[⟨MetaVarType.BOOL, "b", "bool"⟩], [⟨[], 4096, ""⟩]⟩)
    (List.mem_singleton.mpr rfl) ⟨[], 4096, ""⟩ (List.mem_singleton.mpr rfl)
  exact absurd hbad (by decide)

/-! ## Theorems: the primitive type and boolean scenario -/

theorem materialized_values (selector : List Nat → Option Nat) (tuples : List (List Nat)) :
    (tuples.filterMap (fun tuple =>
        (selector tuple).map (fun addr => (⟨tuple, addr⟩ : MetaVarMaterializedInstance)))).map
      (fun inst => inst.m_values)
      = tuples.filter (fun tuple => (selector tuple).isSome) := by
  induction tuples with
  | nil => rfl
  | cons tuple rest ih =>
    cases hs : selector tuple with
    | none => simp [List.filterMap_cons, List.filter_cons, hs, ih]
    | some addr => simp [List.filterMap_cons, List.filter_cons, hs, ih]

theorem primBool_tuples (enumSize : String → Nat) :
    enumerateTuples (primBoolSpec.map (metaVarDomain enumSize))
      = enumerateTuples (primBoolSpec.map (metaVarDomain (fun _ => 0))) := rfl

/-- C13 as the code has it: for the meta-variables [PrimitiveType, Bool], enumerated depth-first
in canonical order, and a selector that accepts exactly the tuples whose type is one of the 9
primitive integer types, the materialized list has 18 instances and its first three tuples are
(bool, false), (bool, true), (int8_t, false): bool is the first of the primitive integer
types. -/
theorem primitive_bool_scenario (enumSize : String → Nat) (selector : List Nat → Option Nat)
    (hsel : ∀ tuple ∈ enumerateTuples (primBoolSpec.map (metaVarDomain enumSize)),
      (selector tuple).isSome = hasIntType tuple) :
    (materialize enumSize primBoolSpec selector).m_instances.length = 18
    ∧ ((materialize enumSize primBoolSpec selector).m_instances.take 3).map
        (fun inst => inst.m_values)
      = [[typeTag PrimitiveType.bool, boolTag false], [typeTag PrimitiveType.bool, boolTag true],
         [typeTag PrimitiveType.int8_t, boolTag false]] := by
  have hvals : (materialize enumSize primBoolSpec selector).m_instances.map
      (fun inst => inst.m_values)
      = (enumerateTuples (primBoolSpec.map (metaVarDomain (fun _ => 0)))).filter hasIntType := by
    unfold materialize
    rw [materialized_values]
    rw [List.filter_congr hsel, primBool_tuples]
  constructor
  · have hlen := congrArg List.length hvals
    rw [List.length_map] at hlen
    rw [hlen]
    decide
  · rw [List.map_take, hvals]
    decide

theorem primitive_bool_scenario_witness :
    (materialize (fun _ => 0) primBoolSpec intSelector).m_instances.length = 18
    ∧ ((materialize (fun _ => 0) primBoolSpec intSelector).m_instances.take 3).map
        (fun inst => inst.m_values)
      = [[typeTag PrimitiveType.bool, boolTag false], [typeTag PrimitiveType.bool, boolTag true],
         [typeTag PrimitiveType.int8_t, boolTag false]] :=
  primitive_bool_scenario (fun _ => 0) intSelector (by decide)

/-- C13, counterexample: with a selector that accepts exactly the tuples of the 9 primitive
integer types there are 18 instances, but the first three tuples are those of bool and int8_t,
not (int8_t, false), (int8_t, true), (int16_t, false). -/
theorem primitive_bool_scenario_starts_with_bool :
    (materialize (fun _ => 0) primBoolSpec intSelector).m_instances.length = 18
    ∧ ((materialize (fun _ => 0) primBoolSpec intSelector).m_instances.take 3).map
        (fun inst => inst.m_values)
      = [[typeTag PrimitiveType.bool, boolTag false], [typeTag PrimitiveType.bool, boolTag true],
         [typeTag PrimitiveType.int8_t, boolTag false]]
    ∧ ((materialize (fun _ => 0) primBoolSpec intSelector).m_instances.take 3).map
        (fun inst => inst.m_values)
      ≠ [[typeTag PrimitiveType.int8_t, boolTag false],
         [typeTag PrimitiveType.int8_t, boolTag true],
         [typeTag PrimitiveType.int16_t, boolTag false]] := by
  refine ⟨?_, ?_, ?_⟩ <;> decide

/-! ## Theorems: the arity of the registered instances -/

theorem enumerateTuples_length (domains : List (List Nat)) :
    ∀ tuple ∈ enumerateTuples domains, tuple.length = domains.length := by
  induction domains with
  | nil =>
    intro tuple h
    simp only [enumerateTuples, List.mem_singleton] at h
    subst h
    rfl
  | cons domain rest ih =>
    intro tuple h
    simp only [enumerateTuples, List.mem_flatten, List.mem_map] at h
    obtain ⟨l, ⟨v, _, rfl⟩, hl⟩ := h
    obtain ⟨t, ht, rfl⟩ := List.mem_map.mp hl
    simp [ih t ht]

/-- Every instance of a materialized list has one value per meta-variable. -/
theorem materialize_arity (enumSize : String → Nat) (metavars : List MetaVar)
    (selector : List Nat → Option Nat) :
    ∀ inst ∈ (materialize enumSize metavars selector).m_instances,
      inst.m_values.length = (materialize enumSize metavars selector).m_metavars.length := by
  intro inst h
  simp only [materialize, List.mem_filterMap] at h
  obtain ⟨tuple, ht, hsome⟩ := h
  cases hs : selector tuple with
  | none => simp [hs] at hsome
  | some addr =>
    simp only [hs, Option.map_some', Option.some.injEq] at hsome
    subst hsome
    have := enumerateTuples_length _ tuple ht
    simpa [materialize] using this

/-- C12: in every registry reached by calls of the registration hook on lists whose instances
have one value per meta-variable (as every materialized list has), started from a registry with
the same property (the empty one at process start), every instance of every pack has as many
values as the pack has parameters; and the pack of each call has one parameter per meta-variable
and carries the instances of its list, in the same order, each with its values and function
address and an empty symbol name. -/
theorem instance_arity_invariant (ParseTypeName : String → String)
    (calls : List (AstNodeType × MetaVarMaterializedList)) (g g1 : Registry)
    (hcalls : ∀ c ∈ calls, ∀ inst ∈ c.2.m_instances,
      inst.m_values.length = c.2.m_metavars.length)
    (hg : ∀ e ∈ g, ∀ binst ∈ e.2.m_instances, binst.m_paramValues.length = e.2.m_params.length)
    (h : registerAll ParseTypeName calls g = .ok g1) :
    (∀ e ∈ g1, ∀ binst ∈ e.2.m_instances, binst.m_paramValues.length = e.2.m_params.length)
    ∧ ∃ packs, g1 = g ++ packs ∧
        List.Forall₂
          (fun c e => e.1 = c.1 ∧ e.2.m_params.length = c.2.m_metavars.length ∧
            e.2.m_instances
              = c.2.m_instances.map (fun inst => ⟨inst.m_values, inst.m_fnPtr, ""⟩))
          calls packs := by
  induction calls generalizing g with
  | nil =>
    simp only [registerAll, Except.ok.injEq] at h
    subst h
    exact ⟨hg, [], by simp, List.Forall₂.nil⟩
  | cons c rest ih =>
    obtain ⟨nodeType, list⟩ := c
    simp only [registerAll] at h
    cases hb : __pochivm_register_fast_interp_boilerplate__ ParseTypeName nodeType list g with
    | error e => simp [hb] at h
    | ok g2 =>
      simp only [hb] at h
      obtain ⟨⟨bp, hg2, hlen, hinsts, _⟩, hkeep⟩ :=
        hook_keeps_instance_arity ParseTypeName nodeType list g g2 hb
      have hg2inv := hkeep (hcalls (nodeType, list) (List.mem_cons_self _ _)) hg
      obtain ⟨hinv, packs, hg1, hall⟩ :=
        ih g2 (fun c hc => hcalls c (List.mem_cons_of_mem _ hc)) hg2inv h
      refine ⟨hinv, (nodeType, bp) :: packs, by simp [hg1, hg2], ?_⟩
      exact List.Forall₂.cons ⟨rfl, hlen, hinsts⟩ hall

theorem instance_arity_invariant_witness :
    registerAll (fun s => s)
        [(⟨0⟩, negList), (⟨1⟩, materialize (fun _ => 0) primBoolSpec intSelector)] []
      = .ok [negPack, primBoolPack]
    ∧ [negPack, primBoolPack].all (fun e => e.2.m_instances.all
        (fun binst => decide (binst.m_paramValues.length = e.2.m_params.length))) = true
    ∧ primBoolPack.2.m_instances.length = 18 :=
  ⟨rfl,
   List.all_eq_true.mpr (fun e he => List.all_eq_true.mpr (fun binst hb =>
    decide_eq_true
      ((instance_arity_invariant (fun s => s)
          [(⟨0⟩, negList), (⟨1⟩, materialize (fun _ => 0) primBoolSpec intSelector)] []
          [negPack, primBoolPack]
          (by
            intro c hc
            rcases List.mem_cons.mp hc with rfl | hc
            · decide
            · rw [List.mem_singleton] at hc
              subst hc
              exact materialize_arity _ _ _)
          (by simp) rfl).1 e he binst hb))),
   by decide⟩

end PochiVM
